import Mathlib

/-!
Verification of the AutoArchaeologist artifact graph engine
(`autoarchaeologist/artifact.py`) against its natural-language
specification.

The development is a shallow embedding of `ArtifactClass` and the parts of
the `Excavation` registry it touches.  Artifacts live in an arena
(`Excv.arts`, identified by their index), bytes are `List Nat` (each < 256),
Python `None`-able ints are `Option Nat`, Python sets are duplicate-free
lists with membership-guarded insertion, and Python exceptions are an
explicit `Res` result type that carries the state at the moment the
exception escapes (Python mutations performed before a `raise`/`assert`
are not rolled back).  SHA-256 is implemented concretely so that digests
are the real content digests.
-/

/-! ## SHA-256 (as used by `hashlib.sha256(...).hexdigest()`) -/

abbrev Bytes : Type := List Nat

def m32 (x : Nat) : Nat := x % 4294967296

def shaRotr (n x : Nat) : Nat := m32 ((x >>> n) ||| (x <<< (32 - n)))

def bigS0 (x : Nat) : Nat := shaRotr 2 x ^^^ shaRotr 13 x ^^^ shaRotr 22 x

def bigS1 (x : Nat) : Nat := shaRotr 6 x ^^^ shaRotr 11 x ^^^ shaRotr 25 x

def smlS0 (x : Nat) : Nat := shaRotr 7 x ^^^ shaRotr 18 x ^^^ (x >>> 3)

def smlS1 (x : Nat) : Nat := shaRotr 17 x ^^^ shaRotr 19 x ^^^ (x >>> 10)

def chF (x y z : Nat) : Nat := (x &&& y) ^^^ ((x ^^^ 4294967295) &&& z)

def majF (x y z : Nat) : Nat := (x &&& y) ^^^ (x &&& z) ^^^ (y &&& z)

def shaK : List Nat :=
  [1116352408, 1899447441, 3049323471, 3921009573, 961987163,
   1508970993, 2453635748, 2870763221, 3624381080, 310598401,
   607225278, 1426881987, 1925078388, 2162078206, 2614888103,
   3248222580, 3835390401, 4022224774, 264347078, 604807628,
   770255983, 1249150122, 1555081692, 1996064986, 2554220882,
   2821834349, 2952996808, 3210313671, 3336571891, 3584528711,
   113926993, 338241895, 666307205, 773529912, 1294757372,
   1396182291, 1695183700, 1986661051, 2177026350, 2456956037,
   2730485921, 2820302411, 3259730800, 3345764771, 3516065817,
   3600352804, 4094571909, 275423344, 430227734, 506948616,
   659060556, 883997877, 958139571, 1322822218, 1537002063,
   1747873779, 1955562222, 2024104815, 2227730452, 2361852424,
   2428436474, 2756734187, 3204031479, 3329325298]

def shaH0 : List Nat :=
  [1779033703, 3144134277, 1013904242, 2773480762,
   1359893119, 2600822924, 528734635, 1541459225]

def beBytes (n v : Nat) : List Nat :=
  (List.range n).map (fun i => (v >>> (8 * (n - 1 - i))) % 256)

def shaPad (msg : List Nat) : List Nat :=
  let L := msg.length
  let k := (119 - (L % 64)) % 64
  msg ++ [0x80] ++ List.replicate k 0 ++ beBytes 8 (8 * L)

def shaWord (p : List Nat) (off : Nat) : Nat :=
  p.getD off 0 * 16777216 + p.getD (off + 1) 0 * 65536 +
    p.getD (off + 2) 0 * 256 + p.getD (off + 3) 0

def shaBlocks (p : List Nat) : List (List Nat) :=
  (List.range (p.length / 64)).map (fun b =>
    (List.range 16).map (fun w => shaWord p (64 * b + 4 * w)))

def shaSchedStep (w : List Nat) (_i : Nat) : List Nat :=
  w ++ [m32 (smlS1 (w.getD (w.length - 2) 0) + w.getD (w.length - 7) 0 +
             smlS0 (w.getD (w.length - 15) 0) + w.getD (w.length - 16) 0)]

def shaSchedule (blk : List Nat) : List Nat :=
  (List.range 48).foldl shaSchedStep blk

def shaRound (w : List Nat) (st : List Nat) (t : Nat) : List Nat :=
  let a := st.getD 0 0
  let b := st.getD 1 0
  let c := st.getD 2 0
  let d := st.getD 3 0
  let e := st.getD 4 0
  let f := st.getD 5 0
  let g := st.getD 6 0
  let hh := st.getD 7 0
  let t1 := m32 (hh + bigS1 e + chF e f g + shaK.getD t 0 + w.getD t 0)
  let t2 := m32 (bigS0 a + majF a b c)
  [m32 (t1 + t2), a, b, c, m32 (d + t1), e, f, g]

def shaCompress (h : List Nat) (blk : List Nat) : List Nat :=
  let w := shaSchedule blk
  let fin := (List.range 64).foldl (shaRound w) h
  (List.range 8).map (fun i => m32 (h.getD i 0 + fin.getD i 0))

def sha256bytes (msg : List Nat) : List Nat :=
  ((shaBlocks (shaPad msg)).foldl shaCompress shaH0).flatMap (beBytes 4)

def hexChar (n : Nat) : Char :=
  if n < 10 then Char.ofNat (48 + n) else Char.ofNat (87 + n)

def sha256hex (msg : List Nat) : String :=
  String.mk ((sha256bytes msg).flatMap (fun b => [hexChar (b / 16), hexChar (b % 16)]))

/-! ## Data model

`ArtifactClass` instances live in an arena; an artifact is identified by its
index in `Excv.arts`.  The parent of an artifact is either another artifact
or the excavation itself (`PRef.exc`), which duck-types as an artifact.
-/

/-- Reference to a parent node: the excavation root or an artifact id. -/
inductive PRef
  | exc : PRef
  | art : Nat → PRef
deriving DecidableEq, Repr

/-- One `ArtifactClass` object (`artifact.py` lines 42-70).  `bdx` is the
byte content of the memoryview / ScatterGather (both reduce to their logical
byte string here); `digest` is the hex SHA-256; Python sets (`notes`,
`types`) are duplicate-free lists; `layout` holds `(start, stop, child)`
triples where `start`/`stop` are Python ints-or-None. -/
structure Art where
  bdx : Bytes
  digest : String
  parents : List PRef
  children : List Nat
  named : Option String
  notes : List String
  types : List String
  descriptions : List String
  comments : List String
  taken : Bool
  layout : List (Option Nat × Option Nat × Nat)
deriving DecidableEq, Repr

/-- Modelled from the spec: the `Excavation` registry (excavation.py is not
among the given sources; spec section 3.3 lists its attributes: `hashes`
(digest → Artifact), `names` (set of strings), `index` (string → set of
Artifacts), `top_level`, `digest_prefix`, and it keeps a `children` list in
its role as duck-typed parent). -/
structure Excv where
  arts : List Art
  hashes : List (String × Nat)
  names : List String
  index : List (String × List Nat)
  excChildren : List Nat
  top_level : List Nat
  digestPfx : Nat
deriving DecidableEq, Repr

/-- Python exceptions that the embedded code can raise.  `invalidSource` is
modelled from the spec (section 7 error taxonomy); the artifact code itself
never raises it. -/
inductive PyErr
  | assertError
  | typeError
  | duplicateName
  | invalidSource
deriving DecidableEq, Repr

/-- Result of a Python call: the returned value or the escaping exception,
together with the state at that moment (mutations made before a raise are
not rolled back). -/
inductive Res (α : Type)
  | ok : α → Excv → Res α
  | err : PyErr → Excv → Res α
deriving DecidableEq, Repr

/-- State reached by a call, whether it returned or raised. -/
def resState {α : Type} : Res α → Excv
  | .ok _ s => s
  | .err _ s => s

/-! ## Small helpers (Python semantics) -/

/-- Look up artifact `i` in the arena. -/
def getArt (s : Excv) (i : Nat) : Option Art := s.arts.get? i

/-- Update artifact `i` in place (no-op on an invalid id, which the callers
below never produce on the paths the claims exercise). -/
def updArt (s : Excv) (i : Nat) (f : Art → Art) : Excv :=
  match s.arts.get? i with
  | none => s
  | some a => { s with arts := s.arts.set i (f a) }

/-- Python `set.add`: insert only if not already a member. -/
def setInsert (l : List String) (x : String) : List String :=
  if x ∈ l then l else l ++ [x]

/-- Python `dict.get` on `top.hashes` (first matching key). -/
def hLookup : List (String × Nat) → String → Option Nat
  | [], _ => none
  | (k, v) :: rest, d => if k = d then some v else hLookup rest d

/-- Lookup in the global reverse index. -/
def idxLookup : List (String × List Nat) → String → Option (List Nat)
  | [], _ => none
  | (k, v) :: rest, d => if k = d then some v else idxLookup rest d

/-- Insert artifact `i` into the index set of key `k`. -/
def idxInsert : List (String × List Nat) → String → Nat → List (String × List Nat)
  | [], k, i => [(k, [i])]
  | (k', v) :: rest, k, i =>
      if k' = k then (k', if i ∈ v then v else v ++ [i]) :: rest
      else (k', v) :: idxInsert rest k i

/-- Does `top.index` map key `k` to a set containing artifact `i`? -/
def indexHas (s : Excv) (k : String) (i : Nat) : Bool :=
  match idxLookup s.index k with
  | some v => i ∈ v
  | none => false

/-- Python truthiness of an int-or-None (`if start or stop:` etc.):
`None` and `0` are falsy. -/
def pyTruthyNat : Option Nat → Bool
  | none => false
  | some n => n ≠ 0

/-- Python truthiness of a bytes-or-None value: `None` and `b""` are falsy. -/
def pyTruthyBytes : Option Bytes → Bool
  | none => false
  | some b => b ≠ []

/-- Python `a < b` on int-or-None operands: comparing `None` with anything
(including `None`) raises `TypeError`. -/
def pyLtON : Option Nat → Option Nat → Except PyErr Bool
  | some a, some b => .ok (a < b)
  | _, _ => .error .typeError

/-- Python `stop > start` on int-or-None operands. -/
def pyGtON (a b : Option Nat) : Except PyErr Bool := pyLtON b a

/-! ## Operations of `ArtifactClass` -/

/-- `artifact.py` lines 116-120, `add_parent`: `assert self != parent;
self.parents.append(parent); parent.children.append(self)`. -/
def add_parent (s : Excv) (i : Nat) (p : PRef) : Res Unit :=
  if p = PRef.art i then .err .assertError s
  else
    let s1 := updArt s i (fun a => { a with parents := a.parents ++ [p] })
    match p with
    | .exc => .ok () { s1 with excChildren := s1.excChildren ++ [i] }
    | .art j => .ok () (updArt s1 j (fun a => { a with children := a.children ++ [i] }))

/-- Modelled from the spec: `Excavation.add_artifact` (excavation.py is not
among the given sources).  Spec section 4.3: "Admission (`add_artifact`)
registers digest and adds to top-level if the artifact has only the
excavation as parent." -/
def add_artifact (s : Excv) (i : Nat) : Excv :=
  match getArt s i with
  | none => s
  | some a =>
    let s1 := { s with hashes := s.hashes ++ [(a.digest, i)] }
    if a.parents = [PRef.exc] then { s1 with top_level := s1.top_level ++ [i] }
    else s1

/-- Modelled from the spec: `Excavation.add_to_index` (excavation.py is not
among the given sources).  Spec section 3.3: the index maps a string to the
set of artifacts registered under it. -/
def add_to_index (s : Excv) (key : String) (i : Nat) : Excv :=
  { s with index := idxInsert s.index key i }

/-- `artifact.py` lines 42-70, `ArtifactClass.__init__`: assert nonempty
bits, initialise every field, attach to the parent, and register with the
excavation.  Returns the id of the new artifact. -/
def artifactInit (s : Excv) (up : PRef) (digest : String) (bits : Bytes) : Res Nat :=
  if bits.length = 0 then .err .assertError s
  else
    let i := s.arts.length
    let a : Art :=
      { bdx := bits, digest := digest, parents := [], children := [],
        named := none, notes := [], types := [], descriptions := [],
        comments := [], taken := false, layout := [] }
    let s1 := { s with arts := s.arts ++ [a] }
    match add_parent s1 i up with
    | .err e s' => .err e s'
    | .ok _ s2 => .ok i (add_artifact s2 i)

/-- `artifact.py` lines 164-167, `add_note`: `self.notes.add(note);
self.top.add_to_index(note, self)`. -/
def add_note (s : Excv) (i : Nat) (note : String) : Excv :=
  add_to_index (updArt s i (fun a => { a with notes := setInsert a.notes note })) note i

/-- `artifact.py` lines 142-145, `add_type`: `self.types.add(typ);
self.top.add_to_index(typ, self)`. -/
def add_type (s : Excv) (i : Nat) (typ : String) : Excv :=
  add_to_index (updArt s i (fun a => { a with types := setInsert a.types typ })) typ i

/-- `artifact.py` lines 159-162, `add_comment`: `self.comments.append(desc);
self.notes.add("Has Comment")` (note: no `add_to_index` call). -/
def add_comment (s : Excv) (i : Nat) (desc : String) : Excv :=
  updArt s i (fun a =>
    { a with comments := a.comments ++ [desc],
             notes := setInsert a.notes "Has Comment" })

/-- `artifact.py` lines 155-157, `add_description`. -/
def add_description (s : Excv) (i : Nat) (desc : String) : Excv :=
  updArt s i (fun a => { a with descriptions := a.descriptions ++ [desc] })

/-- `artifact.py` lines 122-140, `set_name`. -/
def set_name (s : Excv) (i : Nat) (name : String) (fallback : Bool) : Res Unit :=
  match getArt s i with
  | none => .err .typeError s
  | some a =>
    if a.named = some name then .ok () s
    else if a.named ≠ none then
      if fallback then .ok () (add_to_index (add_note s i name) name i)
      else .err .duplicateName s
    else if name ∈ s.names then
      if fallback then .ok () (add_to_index (add_note s i name) name i)
      else .err .duplicateName s
    else
      let s1 := { s with names := setInsert s.names name }
      let s2 := updArt s1 i (fun a' => { a' with named := some name })
      .ok () (add_to_index s2 name i)

/-- `artifact.py` line 110-114, `name()`: the canonical name, used by
`__lt__` when `sorted` breaks ties on the artifact component. -/
def name_of (s : Excv) (i : Nat) : String :=
  match getArt s i with
  | none => ""
  | some a =>
    match a.named with
    | some n => "⟦" ++ n ++ "⟧"
    | none => "⟦" ++ String.mk (a.digest.toList.take s.digestPfx) ++ "⟧"

/-- `artifact.py` lines 87-90, `__lt__` between two artifacts:
`self.name() < other.name()` (the excavation branch cannot arise for layout
children, which are always artifacts). -/
def artLt (s : Excv) (i j : Nat) : Bool :=
  decide (name_of s i < name_of s j)

/-- One layout entry: `(start, stop, child)`. -/
abbrev LEntry : Type := Option Nat × Option Nat × Nat

/-- Python `<` on two layout tuples, as used by `sorted(self.layout)`:
compare components with `==` until the first difference, then `<` there
(which raises `TypeError` when `None` meets an int). -/
def entryLt (s : Excv) (x y : LEntry) : Except PyErr Bool :=
  if x.1 ≠ y.1 then pyLtON x.1 y.1
  else if x.2.1 ≠ y.2.1 then pyLtON x.2.1 y.2.1
  else .ok (artLt s x.2.2 y.2.2)

/-- Stable insertion of `x` into an already-sorted list: `x` is placed
before the first element it compares strictly less than. -/
def insertE (s : Excv) (x : LEntry) : List LEntry → Except PyErr (List LEntry)
  | [] => .ok [x]
  | y :: ys =>
    match entryLt s x y with
    | .error e => .error e
    | .ok true => .ok (x :: y :: ys)
    | .ok false =>
      match insertE s x ys with
      | .error e => .error e
      | .ok r => .ok (y :: r)

/-- Python `sorted` over layout entries: a stable comparison sort that
raises the first `TypeError` produced by an attempted comparison.  On a
list whose needed comparisons are all defined it agrees with `sorted`. -/
def sortedE (s : Excv) (l : List LEntry) : Except PyErr (List LEntry) :=
  l.foldlM (fun acc x => insertE s x acc) []

/-- One step of the `examined` walk (`artifact.py` lines 229-234): entries
with a `None` endpoint are skipped; otherwise a gap `[offset, start)` is
recorded when `offset < start` and the cursor becomes `stop`. -/
def walkStep (acc : Nat × List (Nat × Nat)) (e : LEntry) : Nat × List (Nat × Nat) :=
  match e with
  | (some st, some sp, _) =>
    (sp, if acc.1 < st then acc.2 ++ [(acc.1, st)] else acc.2)
  | _ => acc

/-- Python truthiness of the `records` argument: `None` and `[]` are falsy. -/
def pyTruthyRecords : Option (List Bytes) → Bool
  | none => false
  | some rs => rs ≠ []

/-- Tail of `create` (`artifact.py` lines 215-222): consult
`top.hashes.get(digest)`; on a miss allocate a new `ArtifactClass`, on a hit
attach `self` as an additional parent; finally, if `start or stop` is
truthy, append `(start, stop, this)` to `self.layout`. -/
def layoutApp (s : Excv) (i : Nat) (start stop : Option Nat) (j : Nat) : Res Nat :=
  if pyTruthyNat start || pyTruthyNat stop then
    .ok j (updArt s i (fun a => { a with layout := a.layout ++ [(start, stop, j)] }))
  else .ok j s

/-- Dedup consultation and registration part of `create` (see `layoutApp`). -/
def createTail (s : Excv) (selfI : Nat) (digest : String) (bits : Bytes)
    (start stop : Option Nat) : Res Nat :=
  match hLookup s.hashes digest with
  | none =>
    match artifactInit s (.art selfI) digest bits with
    | .err e s' => .err e s'
    | .ok j s2 => layoutApp s2 selfI start stop j
  | some j =>
    match add_parent s j (.art selfI) with
    | .err e s' => .err e s'
    | .ok _ s2 => layoutApp s2 selfI start stop j

/-- The `else` (slice) branch of `create` (`artifact.py` lines 208-214):
`assert stop > start` (a `TypeError` when an endpoint is `None`),
`assert stop <= len(self)`, the whole-self short-circuit, then slice and
hash.  The dangling-id case is a `TypeError`, matching an attribute access
on a missing object; valid callers never reach it. -/
def createSlice (s : Excv) (selfI : Nat) (start stop : Option Nat) : Res Nat :=
  match pyGtON stop start with
  | .error e => .err e s
  | .ok false => .err .assertError s
  | .ok true =>
    match start, stop, getArt s selfI with
    | some st, some sp, some a =>
      if sp ≤ a.bdx.length then
        if st = 0 ∧ sp = a.bdx.length then .ok selfI s
        else
          let b := (a.bdx.drop st).take (sp - st)
          createTail s selfI (sha256hex b) b start stop
      else .err .assertError s
    | _, _, _ => .err .typeError s

/-- `artifact.py` lines 197-222, `create`.  `bits` is a Python bytes object
or `None` (the `memoryview` branch computes the same digest as the plain
bytes branch); `records` builds a ScatterGather whose digest is the SHA-256
of the logical concatenation (spec section 3.1, scattergather.py is not
among the given sources). -/
def create (s : Excv) (selfI : Nat) (bits : Option Bytes)
    (start stop : Option Nat) (records : Option (List Bytes)) : Res Nat :=
  if pyTruthyRecords records then
    if bits ≠ none then .err .assertError s
    else
      let content := (records.getD []).flatten
      createTail s selfI (sha256hex content) content start stop
  else
    match bits with
    | some b =>
      if b ≠ [] then createTail s selfI (sha256hex b) b start stop
      else createSlice s selfI start stop
    | none => createSlice s selfI start stop

/-- The `for start, stop in l: self.create(start=start, stop=stop)` loop at
the end of `examined` (`artifact.py` lines 239-240). -/
def gapLoop (s : Excv) (i : Nat) : List (Nat × Nat) → Res Unit
  | [] => .ok () s
  | (a, b) :: rest =>
    match create s i none (some a) (some b) none with
    | .err e s' => .err e s'
    | .ok _ s' => gapLoop s' i rest

/-- `artifact.py` lines 224-240, `examined`: sort the layout, walk it with a
cursor collecting gaps, return early when the cursor never moved, append a
trailing gap when the cursor does not reach `len(self)`, then create a
child for every gap. -/
def examined (s : Excv) (i : Nat) : Res Unit :=
  match getArt s i with
  | none => .err .typeError s
  | some a =>
    match sortedE s a.layout with
    | .error e => .err e s
    | .ok sl =>
      let w := sl.foldl walkStep (0, [])
      if w.1 = 0 then .ok () s
      else
        let l := if w.1 ≠ a.bdx.length then w.2 ++ [(w.1, a.bdx.length)] else w.2
        gapLoop s i l

/-- `artifact.py` lines 181-187, `iter_notes(recursive=True)`, with an
explicit fuel bound since the children graph is not structurally
decreasing.  `none` means the traversal did not complete within the fuel or
hit the `assert child != self`; `some l` is the yielded list. -/
def iterNotesF (s : Excv) : Nat → Nat → Option (List (Nat × String))
  | 0, _ => none
  | fuel + 1, i =>
    match getArt s i with
    | none => some []
    | some a =>
      a.children.foldlM
        (fun acc c =>
          if c = i then none
          else Option.map (fun r => acc ++ r) (iterNotesF s fuel c))
        (a.notes.map (fun n => (i, n)))

/-- `artifact.py` lines 173-179, `iter_types(recursive=True)`, fuelled like
`iterNotesF`. -/
def iterTypesF (s : Excv) : Nat → Nat → Option (List String)
  | 0, _ => none
  | fuel + 1, i =>
    match getArt s i with
    | none => some []
    | some a =>
      a.children.foldlM
        (fun acc c =>
          if c = i then none
          else Option.map (fun r => acc ++ r) (iterTypesF s fuel c))
        a.types

/-- The public mutating metadata operations, for stating invariants over
arbitrary operation sequences. -/
inductive MOp
  | setName : Nat → String → Bool → MOp
  | addNote : Nat → String → MOp
  | addType : Nat → String → MOp
  | addComment : Nat → String → MOp
  | addDescription : Nat → String → MOp
deriving DecidableEq, Repr

/-- Apply one metadata operation (a raising `set_name` leaves the state it
reached, which for `set_name` is the entry state). -/
def applyOp (s : Excv) : MOp → Excv
  | .setName i n fb => resState (set_name s i n fb)
  | .addNote i n => add_note s i n
  | .addType i t => add_type s i t
  | .addComment i c => add_comment s i c
  | .addDescription i d => add_description s i d

/-- Apply a sequence of metadata operations. -/
def applyOps (s : Excv) (ops : List MOp) : Excv := ops.foldl applyOp s

/-- A one-artifact excavation holding a single top-level artifact with
content `bs`, as produced by top-level ingestion (spec sections 3.3 and
4.3): registered in `hashes`, child of the excavation, listed in
`top_level`, with the default `digest_prefix` of 8. -/
def mkTop (bs : Bytes) : Excv :=
  { arts := [{ bdx := bs, digest := sha256hex bs, parents := [PRef.exc],
               children := [], named := none, notes := [], types := [],
               descriptions := [], comments := [], taken := false, layout := [] }],
    hashes := [(sha256hex bs, 0)], names := [], index := [],
    excChildren := [0], top_level := [0], digestPfx := 8 }

set_option maxRecDepth 100000

/-! ## Observation helpers and invariants -/

/-- Layout list of artifact `i` (empty for an invalid id). -/
def layoutOf (s : Excv) (i : Nat) : List LEntry := (getArt s i).elim [] Art.layout

/-- Content length of artifact `i`. -/
def lenOf (s : Excv) (i : Nat) : Nat := (getArt s i).elim 0 (fun a => a.bdx.length)

/-- Parents list of artifact `i`. -/
def parentsOf (s : Excv) (i : Nat) : List PRef := (getArt s i).elim [] Art.parents

/-- Children list of artifact `i`. -/
def childrenOf (s : Excv) (i : Nat) : List Nat := (getArt s i).elim [] Art.children

/-- Digest of artifact `i`. -/
def digestOf (s : Excv) (i : Nat) : String := (getArt s i).elim "" Art.digest

/-- Number of entries of `top.hashes` registered under digest `d`. -/
def countKeys (s : Excv) (d : String) : Nat := (s.hashes.map Prod.fst).count d

/-- A layout entry whose `start` and `stop` are both concrete ints. -/
def isConc (e : LEntry) : Bool := e.1.isSome && e.2.1.isSome

/-- Does the (fully-concrete) entry `e` claim byte `k`? -/
def entryCovers (e : LEntry) (k : Nat) : Bool :=
  match e with
  | (some st, some sp, _) => st ≤ k && k < sp
  | _ => false

/-- Byte `k` lies in some fully-concrete range of the entry list `l`. -/
def concIn (l : List LEntry) (k : Nat) : Prop :=
  ∃ e ∈ l, entryCovers e k = true

instance (l : List LEntry) (k : Nat) : Decidable (concIn l k) := by
  unfold concIn; infer_instance

/-- Well-formedness of the dedup registry: every `hashes` entry points at a
live artifact carrying exactly that digest, and digests key the table at
most once. -/
def WF (s : Excv) : Prop :=
  (∀ e ∈ s.hashes, e.2 < s.arts.length ∧ digestOf s e.2 = e.1) ∧
    (s.hashes.map Prod.fst).Nodup

instance (s : Excv) : Decidable (WF s) := by
  unfold WF; infer_instance

/-- No artifact lists itself among its parents or children. -/
def selfEdgeFree (s : Excv) : Bool :=
  (List.range s.arts.length).all (fun i =>
    match getArt s i with
    | none => true
    | some a => decide (PRef.art i ∉ a.parents) && decide (i ∉ a.children))

/-- Run a sequence of `create` calls, each described by
`(self, bits, start, stop, records)`, threading the state through (raising
calls leave the state they reached). -/
def runCreates (s : Excv) : List (Nat × Option Bytes × Option Nat × Option Nat × Option (List Bytes)) → Excv
  | [] => s
  | (i, bits, st, sp, rcds) :: rest => runCreates (resState (create s i bits st sp rcds)) rest

/-! ## Frame lemmas -/

theorem getArt_updArt (s : Excv) (i j : Nat) (f : Art → Art) :
    getArt (updArt s i f) j = if i = j then (getArt s i).map f else getArt s j := by
  unfold getArt updArt
  cases h : s.arts.get? i with
  | none =>
    by_cases hij : i = j
    · subst hij; simp [h]; exact List.get?_eq_none.mp h
    · simp [hij]
  | some a =>
    have hlt : i < s.arts.length := (List.get?_eq_some.mp h).1
    by_cases hij : i = j
    · subst hij
      simp [h, List.get?_eq_getElem?, List.getElem?_set, hlt]
    · simp [h, List.get?_eq_getElem?, List.getElem?_set, hij]

theorem arts_length_updArt (s : Excv) (i : Nat) (f : Art → Art) :
    (updArt s i f).arts.length = s.arts.length := by
  unfold updArt
  cases s.arts.get? i <;> simp

theorem hashes_updArt (s : Excv) (i : Nat) (f : Art → Art) :
    (updArt s i f).hashes = s.hashes := by
  unfold updArt; cases s.arts.get? i <;> rfl

theorem names_updArt (s : Excv) (i : Nat) (f : Art → Art) :
    (updArt s i f).names = s.names := by
  unfold updArt; cases s.arts.get? i <;> rfl

theorem index_updArt (s : Excv) (i : Nat) (f : Art → Art) :
    (updArt s i f).index = s.index := by
  unfold updArt; cases s.arts.get? i <;> rfl

theorem getArt_add_to_index (s : Excv) (k : String) (j i : Nat) :
    getArt (add_to_index s k j) i = getArt s i := rfl

theorem names_add_to_index (s : Excv) (k : String) (j : Nat) :
    (add_to_index s k j).names = s.names := rfl

theorem getArt_append (s : Excv) (a : Art) (j : Nat) (hj : j < s.arts.length) :
    getArt { s with arts := s.arts ++ [a] } j = getArt s j := by
  unfold getArt
  simpa using List.get?_append hj

theorem getArt_append_self (s : Excv) (a : Art) :
    getArt { s with arts := s.arts ++ [a] } s.arts.length = some a := by
  unfold getArt
  simpa using List.get?_concat_length s.arts a

theorem getArt_none_of_le (s : Excv) (j : Nat) (hj : s.arts.length ≤ j) :
    getArt s j = none := by
  unfold getArt
  exact List.get?_eq_none.mpr hj

/-! ## Claim C4: whole-self slice is identity -/

/-- C4: for every artifact `A` with `len(A) > 0`,
`A.create(start=0, stop=len(A))` returns `A` itself and leaves the state
(in particular `A.layout`, `A.parents`, `A.children`) completely
unchanged: the short-circuit `if not start and stop == len(self)` fires
before any mutation. -/
theorem C4_whole_slice (s : Excv) (i : Nat) (a : Art) (h : getArt s i = some a)
    (hlen : 0 < a.bdx.length) :
    create s i none (some 0) (some a.bdx.length) none = .ok i s := by
  unfold create createSlice
  simp [pyTruthyRecords, pyGtON, pyLtON, hlen, h]

/-- Witness for C4 at a concrete one-byte artifact. -/
theorem C4_whole_slice_witness :
    create (mkTop [88]) 0 none (some 0) (some 1) none = .ok 0 (mkTop [88]) :=
  C4_whole_slice (mkTop [88]) 0
    ⟨[88], sha256hex [88], [PRef.exc], [], none, [], [], [], [], false, []⟩
    rfl (by decide)

/-! ## Claim C8: `create(bits=b"")` -/

/-- C8 counterexample: on a concrete artifact, `create(bits=b"")` raises
`TypeError` (empty bytes are falsy, so control reaches the slice branch and
`stop > start` compares `None` with `None`), not the spec's
`InvalidSource`. -/
theorem C8_counterexample :
    create (mkTop [88]) 0 (some []) none none none = .err .typeError (mkTop [88]) ∧
    Res.err PyErr.typeError (mkTop [88]) ≠ (Res.err PyErr.invalidSource (mkTop [88]) : Res Nat) := by
  exact ⟨rfl, by simp⟩

/-- C8 amended: for every state and artifact, `create(bits=b"")` fails —
with a `TypeError` from `assert stop > start` comparing `None` with `None`
(empty bytes being falsy select the slice branch) — and the state is
completely unchanged: nothing is registered in `top.hashes` and no
parent/child or layout edge is added. -/
theorem C8_empty_bits_amended (s : Excv) (i : Nat) :
    create s i (some []) none none none = .err .typeError s := rfl

/-! ## Claim C9: `examined()` on layouts mixing `None` and concrete endpoints -/

/-- The failing input for C9: an 8-byte artifact where
`create(bits=b"B", stop=5)` left the entry `(None, 5, c1)` and
`create(bits=b"C", start=2, stop=6)` left `(2, 6, c2)`. -/
def c9State : Excv :=
  resState (create
    (resState (create (mkTop [65,65,65,65,66,66,66,66]) 0 (some [66]) none (some 5) none))
    0 (some [67]) (some 2) (some 6) none)

/-- C9: contrary to the claim (and to the intent of the
`if start is None or stop is None: continue` guard inside the walk),
`examined()` does not complete normally on a layout mixing a
`None`-endpoint entry with a concrete-range entry: `sorted(self.layout)`
raises `TypeError` when it compares `2` with `None`, before the guard can
skip anything.  The state is left unchanged. -/
theorem C9_mixed_none_sorted_raises :
    (getArt c9State 0).map Art.layout =
      some [(none, some 5, 1), (some 2, some 6, 2)] ∧
    examined c9State 0 = .err .typeError c9State := by
  constructor
  · rfl
  · rfl

/-! ## Set and index lemmas -/

theorem mem_setInsert_self (l : List String) (x : String) : x ∈ setInsert l x := by
  unfold setInsert
  split
  · assumption
  · simp

theorem mem_setInsert_of_mem (l : List String) (x y : String) (h : y ∈ l) :
    y ∈ setInsert l x := by
  unfold setInsert
  split
  · exact h
  · simp [h]

theorem idxLookup_idxInsert_self (idx : List (String × List Nat)) (k : String) (i : Nat) :
    ∃ v, idxLookup (idxInsert idx k i) k = some v ∧ i ∈ v := by
  induction idx with
  | nil => exact ⟨[i], by simp [idxInsert, idxLookup]⟩
  | cons e rest ih =>
    by_cases hk : e.1 = k
    · by_cases hi : i ∈ e.2
      · exact ⟨e.2, by simp [idxInsert, idxLookup, hk, hi], hi⟩
      · exact ⟨e.2 ++ [i], by simp [idxInsert, idxLookup, hk, hi]⟩
    · obtain ⟨v', hv', hiv⟩ := ih
      exact ⟨v', by simp [idxInsert, idxLookup, hk, hv'], hiv⟩

theorem idxLookup_idxInsert_superset (idx : List (String × List Nat)) (k : String)
    (i : Nat) (k' : String) (v' : List Nat) (h : idxLookup idx k' = some v') :
    ∃ v'', idxLookup (idxInsert idx k i) k' = some v'' ∧ ∀ x ∈ v', x ∈ v'' := by
  induction idx with
  | nil => simp [idxLookup] at h
  | cons e rest ih =>
    obtain ⟨ek, ev⟩ := e
    by_cases hek : ek = k
    · subst hek
      by_cases hk' : ek = k'
      · subst hk'
        have hv : ev = v' := by simpa [idxLookup] using h
        refine ⟨if i ∈ ev then ev else ev ++ [i], ?_, ?_⟩
        · by_cases hi : i ∈ ev <;> simp [idxInsert, idxLookup, hi]
        · intro x hx
          rw [← hv] at hx
          split <;> simp [hx]
      · have h' : idxLookup rest k' = some v' := by
          simpa [idxLookup, hk'] using h
        refine ⟨v', ?_, fun x hx => hx⟩
        simp [idxInsert, idxLookup, hk', h']
    · by_cases hk' : ek = k'
      · subst hk'
        have hv : ev = v' := by simpa [idxLookup] using h
        subst hv
        refine ⟨ev, ?_, fun x hx => hx⟩
        simp [idxInsert, idxLookup, hek]
      · have h' : idxLookup rest k' = some v' := by
          simpa [idxLookup, hk'] using h
        obtain ⟨v'', hv'', hsub⟩ := ih h'
        exact ⟨v'', by simp [idxInsert, idxLookup, hek, hk', hv''], hsub⟩

theorem indexHas_add_to_index_self (s : Excv) (k : String) (i : Nat) :
    indexHas (add_to_index s k i) k i = true := by
  unfold indexHas add_to_index
  obtain ⟨v, hv, hiv⟩ := idxLookup_idxInsert_self s.index k i
  simp [hv, hiv]

theorem indexHas_add_to_index_mono (s : Excv) (k : String) (i : Nat) (k' : String)
    (i' : Nat) (h : indexHas s k' i' = true) :
    indexHas (add_to_index s k i) k' i' = true := by
  unfold indexHas at h ⊢
  unfold add_to_index
  cases hv : idxLookup s.index k' with
  | none => simp [hv] at h
  | some v =>
    have hmem : i' ∈ v := by simpa [hv] using h
    obtain ⟨v'', hv'', hsub⟩ := idxLookup_idxInsert_superset s.index k i k' v hv
    simp [hv'', hsub i' hmem]

theorem indexHas_updArt (s : Excv) (i : Nat) (f : Art → Art) (k : String) (j : Nat) :
    indexHas (updArt s i f) k j = indexHas s k j := by
  unfold indexHas
  rw [index_updArt]

theorem getArt_set_names (s : Excv) (ns : List String) (i : Nat) :
    getArt { s with names := ns } i = getArt s i := rfl

theorem names_add_note (s : Excv) (i : Nat) (n : String) :
    (add_note s i n).names = s.names := by
  unfold add_note
  rw [names_add_to_index, names_updArt]

/-! ## Claim C5: `set_name` semantics -/

/-- C5: for every artifact `A` and name `n`: if `A` already bears `n` the
call is a no-op; if `A` bears a different name or `n` is already in
`top.names` then with `fallback=True` the name is demoted to a note on `A`
and registered in the index (with `A.named` and `top.names` unchanged), and
with `fallback=False` the call fails with `DuplicateName` leaving the state
unchanged; otherwise `n` is added to `top.names`, `A.named` becomes `n`,
and `n` is registered in the index mapping to `A`. -/
theorem C5_set_name (s : Excv) (i : Nat) (a : Art) (n : String) (fb : Bool)
    (h : getArt s i = some a) :
    (a.named = some n → set_name s i n fb = .ok () s) ∧
    (a.named ≠ some n → (a.named ≠ none ∨ n ∈ s.names) →
      (fb = true →
        ∃ s', set_name s i n fb = .ok () s' ∧
          getArt s' i = some { a with notes := setInsert a.notes n } ∧
          n ∈ setInsert a.notes n ∧
          indexHas s' n i = true ∧ s'.names = s.names) ∧
      (fb = false → set_name s i n fb = .err .duplicateName s)) ∧
    (a.named = none → n ∉ s.names →
      ∃ s', set_name s i n fb = .ok () s' ∧
        n ∈ s'.names ∧
        getArt s' i = some { a with named := some n } ∧
        indexHas s' n i = true) := by
  refine ⟨?_, ?_, ?_⟩
  · intro hn
    unfold set_name
    simp [h, hn]
  · intro hne hdup
    have hrunFb : set_name s i n true = .ok () (add_to_index (add_note s i n) n i) := by
      rcases hdup with hnamed | hmem
      · unfold set_name
        simp [h, hne, hnamed]
      · by_cases hnamed : a.named = none
        · unfold set_name
          simp [h, hne, hnamed, hmem]
        · unfold set_name
          simp [h, hne, hnamed]
    have hrunNoFb : set_name s i n false = .err .duplicateName s := by
      rcases hdup with hnamed | hmem
      · unfold set_name
        simp [h, hne, hnamed]
      · by_cases hnamed : a.named = none
        · unfold set_name
          simp [h, hne, hnamed, hmem]
        · unfold set_name
          simp [h, hne, hnamed]
    constructor
    · intro hfb
      subst hfb
      refine ⟨add_to_index (add_note s i n) n i, hrunFb, ?_, mem_setInsert_self _ _, ?_, ?_⟩
      · rw [getArt_add_to_index]
        unfold add_note
        rw [getArt_add_to_index, getArt_updArt]
        simp [h]
      · exact indexHas_add_to_index_self _ n i
      · rw [names_add_to_index, names_add_note]
    · intro hfb
      subst hfb
      exact hrunNoFb
  · intro hnone hnot
    have hne : ¬ a.named = some n := by simp [hnone]
    refine ⟨add_to_index (updArt { s with names := setInsert s.names n } i
      (fun a' => { a' with named := some n })) n i, ?_, ?_, ?_, ?_⟩
    · unfold set_name
      simp [h, hne, hnone, hnot]
    · rw [names_add_to_index, names_updArt]
      exact mem_setInsert_self _ _
    · rw [getArt_add_to_index, getArt_updArt]
      simp [getArt_set_names, h]
    · exact indexHas_add_to_index_self _ n i

/-- Witness for C5: a fresh artifact claims the name "alpha"; the claiming
branch of the theorem applies. -/
theorem C5_set_name_witness :
    ∃ s', set_name (mkTop [88]) 0 "alpha" true = .ok () s' ∧
      "alpha" ∈ s'.names ∧
      getArt s' 0 = some ⟨[88], sha256hex [88], [PRef.exc], [],
        some "alpha", [], [], [], [], false, []⟩ ∧
      indexHas s' "alpha" 0 = true :=
  (C5_set_name (mkTop [88]) 0
    ⟨[88], sha256hex [88], [PRef.exc], [], none, [], [], [], [], false, []⟩
    "alpha" true rfl).2.2 rfl (by decide)

/-! ## Claim C3: cursor semantics of the `examined` walk -/

theorem walk_last_stop (l : List LEntry) (acc : Nat × List (Nat × Nat)) (d : LEntry)
    (hconc : ∀ e ∈ l, isConc e = true) (hne : l ≠ []) :
    (l.foldl walkStep acc).1 = ((l.getLastD d).2.1).getD 0 := by
  induction l generalizing acc d with
  | nil => exact absurd rfl hne
  | cons e rest ih =>
    cases rest with
    | nil =>
      obtain ⟨o1, o2, c⟩ := e
      have hc := hconc (o1, o2, c) (by simp)
      unfold isConc at hc
      simp only [Bool.and_eq_true] at hc
      obtain ⟨st, h1⟩ := Option.isSome_iff_exists.mp hc.1
      obtain ⟨sp, h2⟩ := Option.isSome_iff_exists.mp hc.2
      subst h1
      subst h2
      simp [walkStep]
    | cons e2 rest2 =>
      rw [List.foldl_cons, List.getLastD_cons]
      exact ih _ _ (fun x hx => hconc x (List.mem_cons_of_mem _ hx)) (by simp)

/-- C3 amended: in `examined()`'s left-to-right walk the cursor after each
entry equals that entry's `stop` — the final cursor over any nonempty
all-concrete entry list is the last entry's `stop`, independent of the
initial cursor — and this is not the `max(cursor, stop)` of the claim:
an entry contained in an earlier entry's range rewinds the cursor, so a
gap overlapping already-claimed bytes can be created
(`C3_counterexample`). -/
theorem C3_cursor_is_stop (l : List LEntry) (acc : Nat × List (Nat × Nat))
    (hconc : ∀ e ∈ l, isConc e = true) (hne : l ≠ []) :
    (l.foldl walkStep acc).1 = ((l.getLastD ((none, none, 0) : LEntry)).2.1).getD 0 ∧
    ∃ acc' st sp c, (walkStep acc' (some st, some sp, c)).1 ≠ max acc'.1 sp := by
  refine ⟨walk_last_stop l acc _ hconc hne, ⟨(10, []), 2, 3, 0, by decide⟩⟩

/-- Witness for C3 at the concrete sorted layout `[(1,10),(2,3)]` with the
cursor already at 10: the final cursor is 3, not `max 10 3`. -/
theorem C3_cursor_is_stop_witness :
    (([(some 1, some 10, 1), (some 2, some 3, 2)] : List LEntry).foldl walkStep (10, [])).1 =
      ((([(some 1, some 10, 1), (some 2, some 3, 2)] : List LEntry).getLastD
        ((none, none, 0) : LEntry)).2.1).getD 0 ∧
    ∃ acc' st sp c, (walkStep acc' (some st, some sp, c)).1 ≠ max acc'.1 sp :=
  C3_cursor_is_stop [(some 1, some 10, 1), (some 2, some 3, 2)] (10, [])
    (by decide) (by decide)

/-- The C3 counterexample state: a 12-byte artifact whose layout carries
`(1, 10, c1)` and the contained entry `(2, 3, c2)` (installed through
`create(bits=..., start=..., stop=...)`, which appends without range
checks). -/
def c3State : Excv :=
  resState (create
    (resState (create (mkTop (List.replicate 12 65)) 0 (some [66]) (some 1) (some 10) none))
    0 (some [67]) (some 2) (some 3) none)

/-- C3 counterexample: on `c3State`, whose layout contains `(2,3)` inside
`(1,10)`, `examined()` completes and appends the gap children `(0,1)` and
`(3,12)`; the gap `[3,12)` overlaps byte 5, which entry `(1,10)` had
already claimed — refuting "no gap range overlapping an already-claimed
byte is created". -/
theorem C3_counterexample :
    examined c3State 0 = .ok () (resState (examined c3State 0)) ∧
    layoutOf (resState (examined c3State 0)) 0 =
      [(some 1, some 10, 1), (some 2, some 3, 2), (some 0, some 1, 3), (some 3, some 12, 4)] ∧
    entryCovers (some 3, some 12, 4) 5 = true ∧
    entryCovers (some 1, some 10, 1) 5 = true := by
  exact ⟨rfl, rfl, rfl, rfl⟩

/-! ## Claim C6: index completeness -/

/-- Index completeness check for one artifact (the `"Has Comment"` note is
excepted — see `C6_counterexample`). -/
def artIndexed (s : Excv) (i : Nat) (a : Art) : Bool :=
  (match a.named with | some n => indexHas s n i | none => true) &&
  a.types.all (fun t => indexHas s t i) &&
  a.notes.all (fun nt => nt = "Has Comment" || indexHas s nt i)

/-- Every name and type on any artifact, and every note other than
`"Has Comment"`, is registered in `top.index` under that artifact. -/
def indexOkB (s : Excv) : Bool :=
  (List.range s.arts.length).all (fun i =>
    match getArt s i with
    | none => true
    | some a => artIndexed s i a)

theorem indexOkB_iff (s : Excv) :
    indexOkB s = true ↔ ∀ i a, getArt s i = some a →
      ((∀ n, a.named = some n → indexHas s n i = true) ∧
       (∀ t ∈ a.types, indexHas s t i = true) ∧
       (∀ nt ∈ a.notes, nt ≠ "Has Comment" → indexHas s nt i = true)) := by
  unfold indexOkB artIndexed
  rw [List.all_eq_true]
  constructor
  · intro h i a ha
    have hi : i < s.arts.length := by
      by_contra hge
      rw [getArt_none_of_le s i (Nat.le_of_not_lt hge)] at ha
      cases ha
    have hh := h i (List.mem_range.mpr hi)
    rw [ha] at hh
    simp only [Bool.and_eq_true, List.all_eq_true, Bool.or_eq_true,
      decide_eq_true_eq] at hh
    refine ⟨?_, fun t ht => hh.1.2 t ht, fun nt hnt hne => ?_⟩
    · intro n hn
      rw [hn] at hh
      exact hh.1.1
    · rcases hh.2 nt hnt with heq | hhas
      · exact absurd heq hne
      · exact hhas
  · intro h i _
    cases ha : getArt s i with
    | none => simp
    | some a =>
      obtain ⟨h1, h2, h3⟩ := h i a ha
      simp only [Bool.and_eq_true, List.all_eq_true, Bool.or_eq_true,
        decide_eq_true_eq]
      refine ⟨⟨?_, h2⟩, ?_⟩
      · cases hn : a.named with
        | none => simp
        | some n => exact h1 n hn
      · intro nt hnt
        by_cases hne : nt = "Has Comment"
        · exact Or.inl hne
        · exact Or.inr (h3 nt hnt hne)

theorem getArt_add_note (s : Excv) (i : Nat) (n : String) (j : Nat) :
    getArt (add_note s i n) j =
      if i = j then (getArt s i).map (fun a => { a with notes := setInsert a.notes n })
      else getArt s j := by
  unfold add_note
  rw [getArt_add_to_index, getArt_updArt]

theorem indexHas_add_note_mono (s : Excv) (i : Nat) (n : String) (k : String) (j : Nat)
    (h : indexHas s k j = true) : indexHas (add_note s i n) k j = true := by
  unfold add_note
  refine indexHas_add_to_index_mono _ n i k j ?_
  rw [indexHas_updArt]
  exact h

theorem indexHas_add_note_self (s : Excv) (i : Nat) (n : String) :
    indexHas (add_note s i n) n i = true := by
  unfold add_note
  exact indexHas_add_to_index_self _ n i

theorem addNote_preserves_indexOkB (s : Excv) (i : Nat) (n : String)
    (h : indexOkB s = true) : indexOkB (add_note s i n) = true := by
  rw [indexOkB_iff] at h ⊢
  intro j a' ha'
  rw [getArt_add_note] at ha'
  by_cases hij : i = j
  · subst hij
    cases hg : getArt s i with
    | none => rw [hg] at ha'; simp at ha'
    | some a =>
      rw [hg] at ha'
      simp only [if_pos rfl, Option.map_some'] at ha'
      have hinj : a' = { a with notes := setInsert a.notes n } := by
        simpa using ha'.symm
      subst hinj
      obtain ⟨h1, h2, h3⟩ := h i a hg
      refine ⟨?_, ?_, ?_⟩
      · intro m hm
        exact indexHas_add_note_mono s i n m i (h1 m hm)
      · intro t ht
        exact indexHas_add_note_mono s i n t i (h2 t ht)
      · intro nt hnt hne
        rcases (by simpa [setInsert] using hnt :
            nt ∈ (if n ∈ a.notes then a.notes else a.notes ++ [n])) with hmem
        by_cases hcase : nt ∈ a.notes
        · exact indexHas_add_note_mono s i n nt i (h3 nt hcase hne)
        · have : nt = n := by
            by_cases hn : n ∈ a.notes
            · rw [if_pos hn] at hmem; exact absurd hmem hcase
            · rw [if_neg hn] at hmem
              rcases List.mem_append.mp hmem with h' | h'
              · exact absurd h' hcase
              · simpa using h'
          subst this
          exact indexHas_add_note_self s i nt
  · cases hg : getArt s j with
    | none => rw [hg, if_neg hij] at ha'; simp at ha'
    | some a =>
      rw [hg, if_neg hij] at ha'
      have : a' = a := by simpa using ha'.symm
      subst this
      obtain ⟨h1, h2, h3⟩ := h j a' hg
      exact ⟨fun m hm => indexHas_add_note_mono s i n m j (h1 m hm),
        fun t ht => indexHas_add_note_mono s i n t j (h2 t ht),
        fun nt hnt hne => indexHas_add_note_mono s i n nt j (h3 nt hnt hne)⟩

theorem addToIndex_preserves_indexOkB (s : Excv) (k : String) (j : Nat)
    (h : indexOkB s = true) : indexOkB (add_to_index s k j) = true := by
  rw [indexOkB_iff] at h ⊢
  intro i a ha
  rw [getArt_add_to_index] at ha
  obtain ⟨h1, h2, h3⟩ := h i a ha
  exact ⟨fun m hm => indexHas_add_to_index_mono s k j m i (h1 m hm),
    fun t ht => indexHas_add_to_index_mono s k j t i (h2 t ht),
    fun nt hnt hne => indexHas_add_to_index_mono s k j nt i (h3 nt hnt hne)⟩

theorem getArt_add_type (s : Excv) (i : Nat) (t : String) (j : Nat) :
    getArt (add_type s i t) j =
      if i = j then (getArt s i).map (fun a => { a with types := setInsert a.types t })
      else getArt s j := by
  unfold add_type
  rw [getArt_add_to_index, getArt_updArt]

theorem indexHas_add_type_mono (s : Excv) (i : Nat) (t : String) (k : String) (j : Nat)
    (h : indexHas s k j = true) : indexHas (add_type s i t) k j = true := by
  unfold add_type
  refine indexHas_add_to_index_mono _ t i k j ?_
  rw [indexHas_updArt]
  exact h

theorem indexHas_add_type_self (s : Excv) (i : Nat) (t : String) :
    indexHas (add_type s i t) t i = true := by
  unfold add_type
  exact indexHas_add_to_index_self _ t i

theorem addType_preserves_indexOkB (s : Excv) (i : Nat) (t : String)
    (h : indexOkB s = true) : indexOkB (add_type s i t) = true := by
  rw [indexOkB_iff] at h ⊢
  intro j a' ha'
  rw [getArt_add_type] at ha'
  by_cases hij : i = j
  · subst hij
    cases hg : getArt s i with
    | none => rw [hg] at ha'; simp at ha'
    | some a =>
      rw [hg] at ha'
      simp only [if_pos rfl, Option.map_some'] at ha'
      have hinj : a' = { a with types := setInsert a.types t } := by
        simpa using ha'.symm
      subst hinj
      obtain ⟨h1, h2, h3⟩ := h i a hg
      refine ⟨fun m hm => indexHas_add_type_mono s i t m i (h1 m hm), ?_,
        fun nt hnt hne => indexHas_add_type_mono s i t nt i (h3 nt hnt hne)⟩
      intro u hu
      by_cases hcase : u ∈ a.types
      · exact indexHas_add_type_mono s i t u i (h2 u hcase)
      · have : u = t := by
          unfold setInsert at hu
          by_cases hn : t ∈ a.types
          · rw [if_pos hn] at hu; exact absurd hu hcase
          · rw [if_neg hn] at hu
            rcases List.mem_append.mp hu with h' | h'
            · exact absurd h' hcase
            · simpa using h'
        subst this
        exact indexHas_add_type_self s i u
  · cases hg : getArt s j with
    | none => rw [hg, if_neg hij] at ha'; simp at ha'
    | some a =>
      rw [hg, if_neg hij] at ha'
      have : a' = a := by simpa using ha'.symm
      subst this
      obtain ⟨h1, h2, h3⟩ := h j a' hg
      exact ⟨fun m hm => indexHas_add_type_mono s i t m j (h1 m hm),
        fun u hu => indexHas_add_type_mono s i t u j (h2 u hu),
        fun nt hnt hne => indexHas_add_type_mono s i t nt j (h3 nt hnt hne)⟩

theorem getArt_add_comment (s : Excv) (i : Nat) (d : String) (j : Nat) :
    getArt (add_comment s i d) j =
      if i = j then (getArt s i).map (fun a =>
        { a with comments := a.comments ++ [d],
                 notes := setInsert a.notes "Has Comment" })
      else getArt s j := by
  unfold add_comment
  rw [getArt_updArt]

theorem indexHas_add_comment (s : Excv) (i : Nat) (d : String) (k : String) (j : Nat) :
    indexHas (add_comment s i d) k j = indexHas s k j := by
  unfold add_comment
  rw [indexHas_updArt]

theorem addComment_preserves_indexOkB (s : Excv) (i : Nat) (d : String)
    (h : indexOkB s = true) : indexOkB (add_comment s i d) = true := by
  rw [indexOkB_iff] at h ⊢
  intro j a' ha'
  rw [getArt_add_comment] at ha'
  by_cases hij : i = j
  · subst hij
    cases hg : getArt s i with
    | none => rw [hg] at ha'; simp at ha'
    | some a =>
      rw [hg] at ha'
      simp only [if_pos rfl, Option.map_some'] at ha'
      have hinj : a' = { a with comments := a.comments ++ [d], notes := setInsert a.notes "Has Comment" } := by
        simpa using ha'.symm
      subst hinj
      obtain ⟨h1, h2, h3⟩ := h i a hg
      refine ⟨fun m hm => by rw [indexHas_add_comment]; exact h1 m hm,
        fun t ht => by rw [indexHas_add_comment]; exact h2 t ht, ?_⟩
      intro nt hnt hne
      rw [indexHas_add_comment]
      refine h3 nt ?_ hne
      unfold setInsert at hnt
      by_cases hn : "Has Comment" ∈ a.notes
      · rw [if_pos hn] at hnt; exact hnt
      · rw [if_neg hn] at hnt
        rcases List.mem_append.mp hnt with h' | h'
        · exact h'
        · exact absurd (by simpa using h') hne
  · cases hg : getArt s j with
    | none => rw [hg, if_neg hij] at ha'; simp at ha'
    | some a =>
      rw [hg, if_neg hij] at ha'
      have : a' = a := by simpa using ha'.symm
      subst this
      obtain ⟨h1, h2, h3⟩ := h j a' hg
      exact ⟨fun m hm => by rw [indexHas_add_comment]; exact h1 m hm,
        fun t ht => by rw [indexHas_add_comment]; exact h2 t ht,
        fun nt hnt hne => by rw [indexHas_add_comment]; exact h3 nt hnt hne⟩

theorem getArt_add_description (s : Excv) (i : Nat) (d : String) (j : Nat) :
    getArt (add_description s i d) j =
      if i = j then (getArt s i).map (fun a =>
        { a with descriptions := a.descriptions ++ [d] })
      else getArt s j := by
  unfold add_description
  rw [getArt_updArt]

theorem indexHas_add_description (s : Excv) (i : Nat) (d : String) (k : String) (j : Nat) :
    indexHas (add_description s i d) k j = indexHas s k j := by
  unfold add_description
  rw [indexHas_updArt]

theorem addDescription_preserves_indexOkB (s : Excv) (i : Nat) (d : String)
    (h : indexOkB s = true) : indexOkB (add_description s i d) = true := by
  rw [indexOkB_iff] at h ⊢
  intro j a' ha'
  rw [getArt_add_description] at ha'
  by_cases hij : i = j
  · subst hij
    cases hg : getArt s i with
    | none => rw [hg] at ha'; simp at ha'
    | some a =>
      rw [hg] at ha'
      simp only [if_pos rfl, Option.map_some'] at ha'
      have hinj : a' = { a with descriptions := a.descriptions ++ [d] } := by
        simpa using ha'.symm
      subst hinj
      obtain ⟨h1, h2, h3⟩ := h i a hg
      exact ⟨fun m hm => by rw [indexHas_add_description]; exact h1 m hm,
        fun t ht => by rw [indexHas_add_description]; exact h2 t ht,
        fun nt hnt hne => by rw [indexHas_add_description]; exact h3 nt hnt hne⟩
  · cases hg : getArt s j with
    | none => rw [hg, if_neg hij] at ha'; simp at ha'
    | some a =>
      rw [hg, if_neg hij] at ha'
      have : a' = a := by simpa using ha'.symm
      subst this
      obtain ⟨h1, h2, h3⟩ := h j a' hg
      exact ⟨fun m hm => by rw [indexHas_add_description]; exact h1 m hm,
        fun t ht => by rw [indexHas_add_description]; exact h2 t ht,
        fun nt hnt hne => by rw [indexHas_add_description]; exact h3 nt hnt hne⟩

theorem set_name_resState (s : Excv) (i : Nat) (n : String) (fb : Bool) :
    resState (set_name s i n fb) = s ∨
    resState (set_name s i n fb) = add_to_index (add_note s i n) n i ∨
    resState (set_name s i n fb) =
      add_to_index (updArt { s with names := setInsert s.names n } i
        (fun a' => { a' with named := some n })) n i := by
  unfold set_name
  cases hg : getArt s i with
  | none => exact Or.inl rfl
  | some a =>
    by_cases h1 : a.named = some n
    · simp [h1, resState]
    · by_cases h2 : a.named = none
      · by_cases h3 : n ∈ s.names
        · cases fb <;> simp [h1, h2, h3, resState]
        · simp [h1, h2, h3, resState]
      · cases fb <;> simp [h1, h2, resState]

theorem indexHas_set_names (s : Excv) (ns : List String) (k : String) (j : Nat) :
    indexHas { s with names := ns } k j = indexHas s k j := rfl

theorem setName_preserves_indexOkB (s : Excv) (i : Nat) (n : String) (fb : Bool)
    (h : indexOkB s = true) : indexOkB (resState (set_name s i n fb)) = true := by
  rcases set_name_resState s i n fb with he | he | he <;> rw [he]
  · exact h
  · exact addToIndex_preserves_indexOkB _ n i (addNote_preserves_indexOkB s i n h)
  · rw [indexOkB_iff] at h ⊢
    intro j a' ha'
    rw [getArt_add_to_index, getArt_updArt,
      show getArt { s with names := setInsert s.names n } = getArt s from rfl] at ha'
    have hmono : ∀ k m, indexHas s k m = true →
        indexHas (add_to_index (updArt { s with names := setInsert s.names n } i
          (fun a'' => { a'' with named := some n })) n i) k m = true := by
      intro k m hk
      refine indexHas_add_to_index_mono _ n i k m ?_
      rw [indexHas_updArt, indexHas_set_names]
      exact hk
    by_cases hij : i = j
    · subst hij
      cases hg : getArt s i with
      | none => rw [hg] at ha'; simp at ha'
      | some a =>
        rw [hg] at ha'
        simp only [if_pos rfl, Option.map_some'] at ha'
        have hinj : a' = { a with named := some n } := by
          simpa using ha'.symm
        subst hinj
        obtain ⟨h1, h2, h3⟩ := h i a hg
        refine ⟨?_, fun t ht => hmono t i (h2 t ht),
          fun nt hnt hne => hmono nt i (h3 nt hnt hne)⟩
        intro m hm
        have : m = n := by simpa using hm.symm
        subst this
        exact indexHas_add_to_index_self _ m i
    · cases hg : getArt s j with
      | none => rw [hg, if_neg hij] at ha'; simp at ha'
      | some a =>
        rw [hg, if_neg hij] at ha'
        have : a' = a := by simpa using ha'.symm
        subst this
        obtain ⟨h1, h2, h3⟩ := h j a' hg
        exact ⟨fun m hm => hmono m j (h1 m hm),
          fun t ht => hmono t j (h2 t ht),
          fun nt hnt hne => hmono nt j (h3 nt hnt hne)⟩

theorem applyOp_preserves_indexOkB (s : Excv) (op : MOp)
    (h : indexOkB s = true) : indexOkB (applyOp s op) = true := by
  cases op with
  | setName i n fb => exact setName_preserves_indexOkB s i n fb h
  | addNote i n => exact addNote_preserves_indexOkB s i n h
  | addType i t => exact addType_preserves_indexOkB s i t h
  | addComment i c => exact addComment_preserves_indexOkB s i c h
  | addDescription i d => exact addDescription_preserves_indexOkB s i d h

/-- C6 amended: after any sequence of the public mutating operations
(`set_name`, `add_note`, `add_type`, `add_comment`, `add_description`)
starting from a state satisfying the index invariant, every name and type
present on any artifact appears as a key in `top.index` whose set contains
that artifact, and so does every note EXCEPT the note `"Has Comment"`:
`add_comment` inserts that note with a bare `self.notes.add("Has Comment")`
and never calls `top.add_to_index`, so it is not registered
(`C6_counterexample`). -/
theorem C6_index_completeness (s : Excv) (ops : List MOp)
    (h : indexOkB s = true) : indexOkB (applyOps s ops) = true := by
  induction ops generalizing s with
  | nil => exact h
  | cons op rest ih => exact ih (applyOp s op) (applyOp_preserves_indexOkB s op h)

/-- Witness for C6: a run of all five operations on a fresh artifact keeps
the (amended) index invariant. -/
theorem C6_index_completeness_witness :
    indexOkB (applyOps (mkTop [88])
      [MOp.setName 0 "alpha" true, MOp.addNote 0 "n1", MOp.addType 0 "t1",
       MOp.addComment 0 "c1", MOp.addDescription 0 "d1"]) = true :=
  C6_index_completeness (mkTop [88])
    [MOp.setName 0 "alpha" true, MOp.addNote 0 "n1", MOp.addType 0 "t1",
     MOp.addComment 0 "c1", MOp.addDescription 0 "d1"] (by decide)

/-- C6 counterexample: `add_comment` (as a one-element operation sequence
on a fresh artifact) puts the note `"Has Comment"` on the artifact but the
global index has no entry for it — refuting "every name, note, and type
present on any artifact appears as a key in top.index ... in particular the
note 'Has Comment'". -/
theorem C6_counterexample :
    (getArt (applyOps (mkTop [88]) [MOp.addComment 0 "c"]) 0).map Art.notes =
      some ["Has Comment"] ∧
    indexHas (applyOps (mkTop [88]) [MOp.addComment 0 "c"]) "Has Comment" 0 = false := by
  exact ⟨rfl, rfl⟩

/-! ## Claim C7: recursive iteration -/

/-- A DAG with a shared child, built through the public API: top artifact
`A` (id 0), children `B = A.create(bits=b"BB")` (id 1) and
`C = A.create(bits=b"CC")` (id 2), then `B.create(bits=b"CC")` dedups to
`C` and links it as a child of `B` as well; finally `C.add_note("n")`. -/
def c7State : Excv :=
  add_note
    (resState (create
      (resState (create
        (resState (create (mkTop [65,65,65,65]) 0 (some [66,66]) none none none))
        0 (some [67,67]) none none none))
      1 (some [67,67]) none none none))
    2 "n"

/-- C7 counterexample: `iter_notes(recursive=True)` on `A` yields the note
of the shared descendant `C` twice (once per path `A→C` and `A→B→C`) —
refuting "yields the entries of each descendant artifact at most once".
There is no visited-set in the code. -/
theorem C7_counterexample :
    iterNotesF c7State 10 0 = some [((2 : Nat), "n"), (2, "n")] ∧
    ¬ ([((2 : Nat), "n"), (2, "n")] : List (Nat × String)).Nodup := by
  exact ⟨rfl, by decide⟩

/-- A yielded pair is an existing artifact together with one of its own
notes. -/
def noteSound (s : Excv) (p : Nat × String) : Prop :=
  ∃ a, getArt s p.1 = some a ∧ p.2 ∈ a.notes

/-- A yielded type string is a type of some existing artifact. -/
def typeSound (s : Excv) (t : String) : Prop :=
  ∃ j a, getArt s j = some a ∧ t ∈ a.types

theorem iterNotesF_succ_mono (s : Excv) (f : Nat) :
    ∀ i l, iterNotesF s f i = some l → iterNotesF s (f + 1) i = some l := by
  induction f with
  | zero => intro i l h; simp [iterNotesF] at h
  | succ fuel ih =>
    intro i l h
    rw [iterNotesF] at h
    rw [iterNotesF]
    cases hg : getArt s i with
    | none => rw [hg] at h; exact h
    | some a =>
      rw [hg] at h
      dsimp only at h ⊢
      revert h
      generalize (a.notes.map (fun n => (i, n))) = acc
      induction a.children generalizing acc with
      | nil => intro h; exact h
      | cons c cs ihc =>
        intro h
        rw [List.foldlM_cons] at h ⊢
        by_cases hci : c = i
        · rw [if_pos hci] at h
          simp at h
        · rw [if_neg hci] at h ⊢
          cases hc : iterNotesF s fuel c with
          | none => rw [hc] at h; simp at h
          | some r =>
            rw [hc] at h
            rw [ih c r hc]
            simp only [Option.map_some'] at h ⊢
            exact ihc _ h

theorem iterNotesF_mono (s : Excv) (f f' : Nat) (hle : f ≤ f') :
    ∀ i l, iterNotesF s f i = some l → iterNotesF s f' i = some l := by
  induction f' with
  | zero =>
    intro i l h
    have : f = 0 := Nat.le_zero.mp hle
    subst this
    exact h
  | succ n ih =>
    intro i l h
    rcases Nat.lt_or_ge f (n + 1) with hlt | hge
    · exact iterNotesF_succ_mono s n i l (ih (Nat.lt_succ_iff.mp hlt) i l h)
    · have : f = n + 1 := Nat.le_antisymm hle hge
      subst this
      exact h

theorem iterTypesF_succ_mono (s : Excv) (f : Nat) :
    ∀ i l, iterTypesF s f i = some l → iterTypesF s (f + 1) i = some l := by
  induction f with
  | zero => intro i l h; simp [iterTypesF] at h
  | succ fuel ih =>
    intro i l h
    rw [iterTypesF] at h
    rw [iterTypesF]
    cases hg : getArt s i with
    | none => rw [hg] at h; exact h
    | some a =>
      rw [hg] at h
      dsimp only at h ⊢
      revert h
      generalize a.types = acc
      induction a.children generalizing acc with
      | nil => intro h; exact h
      | cons c cs ihc =>
        intro h
        rw [List.foldlM_cons] at h ⊢
        by_cases hci : c = i
        · rw [if_pos hci] at h
          simp at h
        · rw [if_neg hci] at h ⊢
          cases hc : iterTypesF s fuel c with
          | none => rw [hc] at h; simp at h
          | some r =>
            rw [hc] at h
            rw [ih c r hc]
            simp only [Option.map_some'] at h ⊢
            exact ihc _ h

theorem iterTypesF_mono (s : Excv) (f f' : Nat) (hle : f ≤ f') :
    ∀ i l, iterTypesF s f i = some l → iterTypesF s f' i = some l := by
  induction f' with
  | zero =>
    intro i l h
    have : f = 0 := Nat.le_zero.mp hle
    subst this
    exact h
  | succ n ih =>
    intro i l h
    rcases Nat.lt_or_ge f (n + 1) with hlt | hge
    · exact iterTypesF_succ_mono s n i l (ih (Nat.lt_succ_iff.mp hlt) i l h)
    · have : f = n + 1 := Nat.le_antisymm hle hge
      subst this
      exact h

theorem iterNotesF_succ (s : Excv) (fuel i : Nat) :
    iterNotesF s (fuel + 1) i =
      match getArt s i with
      | none => some []
      | some a =>
        a.children.foldlM
          (fun acc c => if c = i then none
            else Option.map (fun r => acc ++ r) (iterNotesF s fuel c))
          (a.notes.map (fun n => (i, n))) := rfl

theorem iterTypesF_succ (s : Excv) (fuel i : Nat) :
    iterTypesF s (fuel + 1) i =
      match getArt s i with
      | none => some []
      | some a =>
        a.children.foldlM
          (fun acc c => if c = i then none
            else Option.map (fun r => acc ++ r) (iterTypesF s fuel c))
          a.types := rfl

theorem iterNotesF_fold (s : Excv) (i fuel : Nat) :
    ∀ cs : List Nat,
      (∀ c ∈ cs, c ≠ i ∧ ∃ lc, iterNotesF s fuel c = some lc ∧ ∀ p ∈ lc, noteSound s p) →
      ∀ acc, (∀ p ∈ acc, noteSound s p) →
      ∃ l, List.foldlM (fun acc' c => if c = i then none
            else Option.map (fun r => acc' ++ r) (iterNotesF s fuel c)) acc cs = some l ∧
        ∀ p ∈ l, noteSound s p := by
  intro cs
  induction cs with
  | nil => intro _ acc hacc; exact ⟨acc, rfl, hacc⟩
  | cons c cs ihc =>
    intro hcs acc hacc
    obtain ⟨hci, lc, hlc, hsound⟩ := hcs c (List.mem_cons_self c cs)
    have haccup : ∀ p ∈ acc ++ lc, noteSound s p := by
      intro p hp
      rcases List.mem_append.mp hp with h' | h'
      · exact hacc p h'
      · exact hsound p h'
    obtain ⟨l, hl, hs⟩ := ihc (fun c' hc' => hcs c' (List.mem_cons_of_mem c hc')) (acc ++ lc) haccup
    refine ⟨l, ?_, hs⟩
    rw [List.foldlM_cons, if_neg hci, hlc]
    simpa using hl

theorem iterTypesF_fold (s : Excv) (i fuel : Nat) :
    ∀ cs : List Nat,
      (∀ c ∈ cs, c ≠ i ∧ ∃ lc, iterTypesF s fuel c = some lc ∧ ∀ t ∈ lc, typeSound s t) →
      ∀ acc, (∀ t ∈ acc, typeSound s t) →
      ∃ l, List.foldlM (fun acc' c => if c = i then none
            else Option.map (fun r => acc' ++ r) (iterTypesF s fuel c)) acc cs = some l ∧
        ∀ t ∈ l, typeSound s t := by
  intro cs
  induction cs with
  | nil => intro _ acc hacc; exact ⟨acc, rfl, hacc⟩
  | cons c cs ihc =>
    intro hcs acc hacc
    obtain ⟨hci, lc, hlc, hsound⟩ := hcs c (List.mem_cons_self c cs)
    have haccup : ∀ t ∈ acc ++ lc, typeSound s t := by
      intro t ht
      rcases List.mem_append.mp ht with h' | h'
      · exact hacc t h'
      · exact hsound t h'
    obtain ⟨l, hl, hs⟩ := ihc (fun c' hc' => hcs c' (List.mem_cons_of_mem c hc')) (acc ++ lc) haccup
    refine ⟨l, ?_, hs⟩
    rw [List.foldlM_cons, if_neg hci, hlc]
    simpa using hl

theorem iterNotesF_total_aux (s : Excv) (rank : Nat → Nat)
    (hr : ∀ i, i < s.arts.length → ∀ c ∈ childrenOf s i, rank c < rank i) :
    ∀ r i, rank i < r →
      ∃ l, iterNotesF s (rank i + 1) i = some l ∧ ∀ p ∈ l, noteSound s p := by
  intro r
  induction r with
  | zero => intro i h; exact absurd h (Nat.not_lt_zero _)
  | succ r ih =>
    intro i hir
    rw [iterNotesF_succ]
    cases hg : getArt s i with
    | none => exact ⟨[], rfl, by intro p hp; simp at hp⟩
    | some a =>
      have hvalid : i < s.arts.length := (List.get?_eq_some.mp hg).1
      have hch : ∀ c ∈ a.children, rank c < rank i := by
        intro c hc
        refine hr i hvalid c ?_
        unfold childrenOf
        rw [hg]
        exact hc
      refine iterNotesF_fold s i (rank i) a.children ?_ _ ?_
      · intro c hc
        have hrc := hch c hc
        refine ⟨by intro he; rw [he] at hrc; exact Nat.lt_irrefl _ hrc, ?_⟩
        obtain ⟨lc, hlc, hsnd⟩ := ih c (Nat.lt_of_lt_of_le hrc (Nat.lt_succ_iff.mp hir))
        exact ⟨lc, iterNotesF_mono s (rank c + 1) (rank i) hrc c lc hlc, hsnd⟩
      · intro p hp
        obtain ⟨n, hn, he⟩ := List.mem_map.mp hp
        rw [← he]
        exact ⟨a, hg, hn⟩

theorem iterTypesF_total_aux (s : Excv) (rank : Nat → Nat)
    (hr : ∀ i, i < s.arts.length → ∀ c ∈ childrenOf s i, rank c < rank i) :
    ∀ r i, rank i < r →
      ∃ l, iterTypesF s (rank i + 1) i = some l ∧ ∀ t ∈ l, typeSound s t := by
  intro r
  induction r with
  | zero => intro i h; exact absurd h (Nat.not_lt_zero _)
  | succ r ih =>
    intro i hir
    rw [iterTypesF_succ]
    cases hg : getArt s i with
    | none => exact ⟨[], rfl, by intro t ht; simp at ht⟩
    | some a =>
      have hvalid : i < s.arts.length := (List.get?_eq_some.mp hg).1
      have hch : ∀ c ∈ a.children, rank c < rank i := by
        intro c hc
        refine hr i hvalid c ?_
        unfold childrenOf
        rw [hg]
        exact hc
      refine iterTypesF_fold s i (rank i) a.children ?_ _ ?_
      · intro c hc
        have hrc := hch c hc
        refine ⟨by intro he; rw [he] at hrc; exact Nat.lt_irrefl _ hrc, ?_⟩
        obtain ⟨lc, hlc, hsnd⟩ := ih c (Nat.lt_of_lt_of_le hrc (Nat.lt_succ_iff.mp hir))
        exact ⟨lc, iterTypesF_mono s (rank c + 1) (rank i) hrc c lc hlc, hsnd⟩
      · intro t ht
        exact ⟨i, a, hg, ht⟩

/-- C7 amended: `iter_notes(recursive=True)` (and `iter_types`) recurses
through children with no visited set.  When the children graph is acyclic
— witnessed by a rank function strictly decreasing along child edges — the
traversal terminates (fuel `rank i + 1` suffices) and every yielded entry
is a note (resp. type) of a real artifact; but a descendant shared between
two children is yielded once per path, i.e. possibly more than once
(`C7_counterexample`). -/
theorem C7_recursive_iteration (s : Excv) (rank : Nat → Nat)
    (hr : ∀ i, i < s.arts.length → ∀ c ∈ childrenOf s i, rank c < rank i) (i : Nat) :
    (∃ l, iterNotesF s (rank i + 1) i = some l ∧ ∀ p ∈ l, noteSound s p) ∧
    (∃ lt, iterTypesF s (rank i + 1) i = some lt ∧ ∀ t ∈ lt, typeSound s t) :=
  ⟨iterNotesF_total_aux s rank hr (rank i + 1) i (Nat.lt_succ_self _),
   iterTypesF_total_aux s rank hr (rank i + 1) i (Nat.lt_succ_self _)⟩

/-- Witness for C7 on the concrete shared-child DAG `c7State` with the
explicit rank `2 - i`. -/
theorem C7_recursive_iteration_witness :
    (∃ l, iterNotesF c7State (2 - 0 + 1) 0 = some l ∧ ∀ p ∈ l, noteSound c7State p) ∧
    (∃ lt, iterTypesF c7State (2 - 0 + 1) 0 = some lt ∧ ∀ t ∈ lt, typeSound c7State t) :=
  C7_recursive_iteration c7State (fun i => 2 - i) (by decide) 0

/-! ## Claim C10: no artifact is its own parent or child -/

theorem selfEdgeFree_iff (s : Excv) :
    selfEdgeFree s = true ↔
      ∀ i a, getArt s i = some a → PRef.art i ∉ a.parents ∧ i ∉ a.children := by
  unfold selfEdgeFree
  rw [List.all_eq_true]
  constructor
  · intro h i a ha
    have hi : i < s.arts.length := (List.get?_eq_some.mp ha).1
    have hh := h i (List.mem_range.mpr hi)
    rw [ha] at hh
    simpa using hh
  · intro h i _
    cases ha : getArt s i with
    | none => simp
    | some a => simpa using h i a ha

theorem selfEdgeFree_updArt (s : Excv) (i : Nat) (f : Art → Art)
    (hf : ∀ a, (f a).parents = a.parents ∧ (f a).children = a.children)
    (h : selfEdgeFree s = true) : selfEdgeFree (updArt s i f) = true := by
  rw [selfEdgeFree_iff] at h ⊢
  intro j a' ha'
  rw [getArt_updArt] at ha'
  by_cases hij : i = j
  · subst hij
    cases hg : getArt s i with
    | none => rw [hg] at ha'; simp at ha'
    | some a =>
      rw [hg] at ha'
      simp only [if_pos rfl, Option.map_some'] at ha'
      have hfa : a' = f a := by simpa using ha'.symm
      subst hfa
      rw [(hf a).1, (hf a).2]
      exact h i a hg
  · rw [if_neg hij] at ha'
    exact h j a' ha'

theorem selfEdgeFree_addParentEdge (s : Excv) (i : Nat) (p : PRef) (hp : p ≠ PRef.art i)
    (h : selfEdgeFree s = true) :
    selfEdgeFree (updArt s i (fun a => { a with parents := a.parents ++ [p] })) = true := by
  rw [selfEdgeFree_iff] at h ⊢
  intro j a' ha'
  rw [getArt_updArt] at ha'
  by_cases hij : i = j
  · subst hij
    cases hg : getArt s i with
    | none => rw [hg] at ha'; simp at ha'
    | some a =>
      rw [hg] at ha'
      simp only [if_pos rfl, Option.map_some'] at ha'
      have hfa : a' = { a with parents := a.parents ++ [p] } := by simpa using ha'.symm
      subst hfa
      obtain ⟨h1, h2⟩ := h i a hg
      refine ⟨?_, h2⟩
      simp only [List.mem_append]
      rintro (hin | hin)
      · exact h1 hin
      · have he : PRef.art i = p := by simpa using hin
        exact hp he.symm
  · rw [if_neg hij] at ha'
    exact h j a' ha'

theorem selfEdgeFree_addChildEdge (s : Excv) (k j : Nat) (hne : j ≠ k)
    (h : selfEdgeFree s = true) :
    selfEdgeFree (updArt s k (fun a => { a with children := a.children ++ [j] })) = true := by
  rw [selfEdgeFree_iff] at h ⊢
  intro m a' ha'
  rw [getArt_updArt] at ha'
  by_cases hkm : k = m
  · subst hkm
    cases hg : getArt s k with
    | none => rw [hg] at ha'; simp at ha'
    | some a =>
      rw [hg] at ha'
      simp only [if_pos rfl, Option.map_some'] at ha'
      have hfa : a' = { a with children := a.children ++ [j] } := by simpa using ha'.symm
      subst hfa
      obtain ⟨h1, h2⟩ := h k a hg
      refine ⟨h1, ?_⟩
      simp only [List.mem_append]
      rintro (hin | hin)
      · exact h2 hin
      · have he : k = j := by simpa using hin
        exact hne he.symm
  · rw [if_neg hkm] at ha'
    exact h m a' ha'

theorem selfEdgeFree_add_parent (s : Excv) (i : Nat) (p : PRef)
    (h : selfEdgeFree s = true) :
    selfEdgeFree (resState (add_parent s i p)) = true := by
  unfold add_parent
  by_cases hp : p = PRef.art i
  · rw [if_pos hp]
    exact h
  · rw [if_neg hp]
    cases p with
    | exc =>
      exact selfEdgeFree_addParentEdge s i PRef.exc hp h
    | art j =>
      have hji : i ≠ j := by
        intro he
        exact hp (by rw [he])
      exact selfEdgeFree_addChildEdge _ j i hji
        (selfEdgeFree_addParentEdge s i (PRef.art j) hp h)

theorem selfEdgeFree_append (s : Excv) (a : Art) (hpa : a.parents = [])
    (hca : a.children = []) (h : selfEdgeFree s = true) :
    selfEdgeFree { s with arts := s.arts ++ [a] } = true := by
  rw [selfEdgeFree_iff] at h ⊢
  intro j a' ha'
  by_cases hj : j < s.arts.length
  · rw [getArt_append s a j hj] at ha'
    exact h j a' ha'
  · by_cases hj2 : j = s.arts.length
    · subst hj2
      rw [getArt_append_self] at ha'
      have hfa : a' = a := by simpa using ha'.symm
      subst hfa
      rw [hpa, hca]
      simp
    · rw [getArt_none_of_le _ j (by simp; omega)] at ha'
      simp at ha'

theorem selfEdgeFree_add_artifact (s : Excv) (i : Nat)
    (h : selfEdgeFree s = true) : selfEdgeFree (add_artifact s i) = true := by
  unfold add_artifact
  cases getArt s i with
  | none => exact h
  | some a =>
    dsimp only
    split
    · exact h
    · exact h

theorem selfEdgeFree_artifactInit (s : Excv) (up : PRef) (d : String) (bits : Bytes)
    (h : selfEdgeFree s = true) :
    selfEdgeFree (resState (artifactInit s up d bits)) = true := by
  unfold artifactInit
  by_cases hb : bits.length = 0
  · rw [if_pos hb]
    exact h
  · rw [if_neg hb]
    dsimp only
    have h1 : selfEdgeFree { s with arts := s.arts ++
        [{ bdx := bits, digest := d, parents := [], children := [], named := none,
           notes := [], types := [], descriptions := [], comments := [],
           taken := false, layout := [] }] } = true :=
      selfEdgeFree_append s _ rfl rfl h
    cases he : add_parent { s with arts := s.arts ++
        [{ bdx := bits, digest := d, parents := [], children := [], named := none,
           notes := [], types := [], descriptions := [], comments := [],
           taken := false, layout := [] }] } s.arts.length up with
    | err e s' =>
      have hh := selfEdgeFree_add_parent _ s.arts.length up h1
      rw [he] at hh
      exact hh
    | ok u s2 =>
      have hh := selfEdgeFree_add_parent _ s.arts.length up h1
      rw [he] at hh
      exact selfEdgeFree_add_artifact s2 _ hh

theorem selfEdgeFree_layoutApp (s : Excv) (i : Nat) (start stop : Option Nat) (j : Nat)
    (h : selfEdgeFree s = true) :
    selfEdgeFree (resState (layoutApp s i start stop j)) = true := by
  unfold layoutApp
  split
  · exact selfEdgeFree_updArt s i _ (fun a => ⟨rfl, rfl⟩) h
  · exact h

theorem selfEdgeFree_createTail (s : Excv) (selfI : Nat) (d : String) (bits : Bytes)
    (start stop : Option Nat) (h : selfEdgeFree s = true) :
    selfEdgeFree (resState (createTail s selfI d bits start stop)) = true := by
  unfold createTail
  cases hLookup s.hashes d with
  | none =>
    dsimp only
    cases he : artifactInit s (PRef.art selfI) d bits with
    | err e s' =>
      have hh := selfEdgeFree_artifactInit s (PRef.art selfI) d bits h
      rw [he] at hh
      exact hh
    | ok j s2 =>
      have hh := selfEdgeFree_artifactInit s (PRef.art selfI) d bits h
      rw [he] at hh
      exact selfEdgeFree_layoutApp s2 selfI start stop j hh
  | some j =>
    dsimp only
    cases he : add_parent s j (PRef.art selfI) with
    | err e s' =>
      have hh := selfEdgeFree_add_parent s j (PRef.art selfI) h
      rw [he] at hh
      exact hh
    | ok u s2 =>
      have hh := selfEdgeFree_add_parent s j (PRef.art selfI) h
      rw [he] at hh
      exact selfEdgeFree_layoutApp s2 selfI start stop j hh

theorem selfEdgeFree_createSlice (s : Excv) (selfI : Nat) (start stop : Option Nat)
    (h : selfEdgeFree s = true) :
    selfEdgeFree (resState (createSlice s selfI start stop)) = true := by
  unfold createSlice
  cases pyGtON stop start with
  | error e => exact h
  | ok b =>
    cases b with
    | false => exact h
    | true =>
      cases start with
      | none => exact h
      | some st =>
        cases stop with
        | none => exact h
        | some sp =>
          cases getArt s selfI with
          | none => exact h
          | some a =>
            dsimp only
            split
            · split
              · exact h
              · exact selfEdgeFree_createTail s selfI _ _ _ _ h
            · exact h

theorem selfEdgeFree_create (s : Excv) (selfI : Nat) (bits : Option Bytes)
    (start stop : Option Nat) (records : Option (List Bytes))
    (h : selfEdgeFree s = true) :
    selfEdgeFree (resState (create s selfI bits start stop records)) = true := by
  unfold create
  split
  · split
    · exact h
    · exact selfEdgeFree_createTail s selfI _ _ _ _ h
  · cases bits with
    | some b =>
      dsimp only
      split
      · exact selfEdgeFree_createTail s selfI _ _ _ _ h
      · exact selfEdgeFree_createSlice s selfI start stop h
    | none => exact selfEdgeFree_createSlice s selfI start stop h

theorem selfEdgeFree_runCreates (s : Excv)
    (calls : List (Nat × Option Bytes × Option Nat × Option Nat × Option (List Bytes)))
    (h : selfEdgeFree s = true) : selfEdgeFree (runCreates s calls) = true := by
  induction calls generalizing s with
  | nil => exact h
  | cons c rest ih =>
    obtain ⟨i, bits, st, sp, rc⟩ := c
    exact ih _ (selfEdgeFree_create s i bits st sp rc h)

/-- C10: when the digest of `b` equals the (registered) digest of the
calling artifact `A` itself, `A.create(bits=b)` hits the dedup path, which
calls `A.add_parent(A)`; its `assert self != parent` fails, the call
aborts with the assertion error and the state — in particular `A.parents`
and `A.children` — is unchanged.  Moreover no sequence of `create` calls
can ever record an artifact as its own parent or child. -/
theorem C10_self_derivation (s : Excv) (i : Nat) (b : Bytes)
    (hd : digestOf s i = sha256hex b)
    (hreg : hLookup s.hashes (digestOf s i) = some i) (hb : b ≠ []) :
    create s i (some b) none none none = .err .assertError s ∧
    ∀ calls, selfEdgeFree s = true → selfEdgeFree (runCreates s calls) = true := by
  constructor
  · rw [hd] at hreg
    unfold create createTail
    simp [pyTruthyRecords, hb, hreg, add_parent]
  · intro calls h
    exact selfEdgeFree_runCreates s calls h

/-- Witness for C10: the top artifact of content `b"X"` tries to derive
its own bytes from itself. -/
theorem C10_self_derivation_witness :
    create (mkTop [88]) 0 (some [88]) none none none = .err .assertError (mkTop [88]) ∧
    ∀ calls, selfEdgeFree (mkTop [88]) = true →
      selfEdgeFree (runCreates (mkTop [88]) calls) = true :=
  C10_self_derivation (mkTop [88]) 0 [88] rfl (by decide) (by decide)

/-! ## Claim C1: content-addressed identity -/

theorem hLookup_mem (l : List (String × Nat)) (d : String) (j : Nat)
    (h : hLookup l d = some j) : (d, j) ∈ l := by
  induction l with
  | nil => simp [hLookup] at h
  | cons e rest ih =>
    obtain ⟨k, v⟩ := e
    by_cases hk : k = d
    · subst hk
      have : v = j := by simpa [hLookup] using h
      subst this
      simp
    · have h' : hLookup rest d = some j := by simpa [hLookup, hk] using h
      exact List.mem_cons_of_mem _ (ih h')

theorem hLookup_none_not_mem (l : List (String × Nat)) (d : String)
    (h : hLookup l d = none) : d ∉ l.map Prod.fst := by
  induction l with
  | nil => simp
  | cons e rest ih =>
    obtain ⟨k, v⟩ := e
    by_cases hk : k = d
    · simp [hLookup, hk] at h
    · have h' : hLookup rest d = none := by simpa [hLookup, hk] using h
      simp only [List.map_cons, List.mem_cons]
      rintro (he | he)
      · exact hk he.symm
      · exact ih h' he

theorem hLookup_append_none (l : List (String × Nat)) (d : String) (v : Nat)
    (h : hLookup l d = none) : hLookup (l ++ [(d, v)]) d = some v := by
  induction l with
  | nil => simp [hLookup]
  | cons e rest ih =>
    obtain ⟨k, w⟩ := e
    by_cases hk : k = d
    · simp [hLookup, hk] at h
    · have h' : hLookup rest d = none := by simpa [hLookup, hk] using h
      simpa [hLookup, hk] using ih h'

theorem getArt_updArt_ne (s : Excv) (i : Nat) (f : Art → Art) (j : Nat) (h : i ≠ j) :
    getArt (updArt s i f) j = getArt s j := by
  rw [getArt_updArt, if_neg h]

theorem getArt_updArt_self (s : Excv) (i : Nat) (f : Art → Art) (a : Art)
    (h : getArt s i = some a) : getArt (updArt s i f) i = some (f a) := by
  rw [getArt_updArt, if_pos rfl, h]
  rfl

theorem getArt_add_artifact (s : Excv) (i j : Nat) :
    getArt (add_artifact s i) j = getArt s j := by
  unfold add_artifact
  cases getArt s i with
  | none => rfl
  | some a =>
    dsimp only
    split <;> rfl

theorem hashes_add_artifact (s : Excv) (i : Nat) (a : Art) (h : getArt s i = some a) :
    (add_artifact s i).hashes = s.hashes ++ [(a.digest, i)] := by
  unfold add_artifact
  rw [h]
  dsimp only
  split <;> rfl

theorem arts_length_add_artifact (s : Excv) (i : Nat) :
    (add_artifact s i).arts.length = s.arts.length := by
  unfold add_artifact
  cases getArt s i with
  | none => rfl
  | some a =>
    dsimp only
    split <;> rfl

theorem digestOf_updArt (s : Excv) (i : Nat) (f : Art → Art)
    (hf : ∀ a, (f a).digest = a.digest) (j : Nat) :
    digestOf (updArt s i f) j = digestOf s j := by
  unfold digestOf
  rw [getArt_updArt]
  by_cases hij : i = j
  · subst hij
    cases getArt s i <;> simp [hf]
  · rw [if_neg hij]

theorem digestOf_updArt_parentAdd (s : Excv) (i : Nat) (p : PRef) (j : Nat) :
    digestOf (updArt s i (fun a => { a with parents := a.parents ++ [p] })) j =
      digestOf s j :=
  digestOf_updArt s i (fun a => { a with parents := a.parents ++ [p] }) (fun _ => rfl) j

theorem digestOf_updArt_childAdd (s : Excv) (i c j : Nat) :
    digestOf (updArt s i (fun a => { a with children := a.children ++ [c] })) j =
      digestOf s j :=
  digestOf_updArt s i (fun a => { a with children := a.children ++ [c] }) (fun _ => rfl) j

theorem parentsOf_updArt_ne (s : Excv) (i : Nat) (f : Art → Art) (j : Nat) (h : i ≠ j) :
    parentsOf (updArt s i f) j = parentsOf s j := by
  unfold parentsOf
  rw [getArt_updArt_ne s i f j h]

theorem parentsOf_updArt_parentAdd (s : Excv) (i : Nat) (p : PRef) (a : Art)
    (h : getArt s i = some a) :
    parentsOf (updArt s i (fun a' => { a' with parents := a'.parents ++ [p] })) i =
      parentsOf s i ++ [p] := by
  unfold parentsOf
  rw [getArt_updArt_self s i _ a h, h]
  rfl

theorem parentsOf_updArt_childAdd (s : Excv) (i : Nat) (c : Nat) (j : Nat) :
    parentsOf (updArt s i (fun a' => { a' with children := a'.children ++ [c] })) j =
      parentsOf s j := by
  unfold parentsOf
  rw [getArt_updArt]
  by_cases hij : i = j
  · subst hij
    cases getArt s i <;> simp
  · rw [if_neg hij]

theorem childrenOf_updArt_childAdd (s : Excv) (i : Nat) (c : Nat) (a : Art)
    (h : getArt s i = some a) :
    childrenOf (updArt s i (fun a' => { a' with children := a'.children ++ [c] })) i =
      childrenOf s i ++ [c] := by
  unfold childrenOf
  rw [getArt_updArt_self s i _ a h, h]
  rfl

theorem childrenOf_mem_updArt (s : Excv) (k : Nat) (f : Art → Art) (j p : Nat)
    (hf : ∀ a, ∃ t, (f a).children = a.children ++ t)
    (h : j ∈ childrenOf s p) : j ∈ childrenOf (updArt s k f) p := by
  unfold childrenOf at h ⊢
  by_cases hkp : k = p
  · subst hkp
    cases hg : getArt s k with
    | none => rw [hg] at h; simp at h
    | some a =>
      rw [hg] at h
      rw [getArt_updArt_self s k f a hg]
      show j ∈ (f a).children
      obtain ⟨t, ht⟩ := hf a
      rw [ht]
      exact List.mem_append_left t h
  · rw [getArt_updArt_ne s k f p hkp]
    exact h

theorem childrenOf_mem_add_artifact (s : Excv) (i : Nat) (j p : Nat)
    (h : j ∈ childrenOf s p) : j ∈ childrenOf (add_artifact s i) p := by
  unfold childrenOf at h ⊢
  rw [getArt_add_artifact]
  exact h

theorem create_bits_hit (s : Excv) (p j : Nat) (b : Bytes)
    (hl : hLookup s.hashes (sha256hex b) = some j) (hb : b ≠ []) (hpj : p ≠ j) :
    create s p (some b) none none none =
      .ok j (updArt (updArt s j (fun a => { a with parents := a.parents ++ [PRef.art p] }))
        p (fun a => { a with children := a.children ++ [j] })) := by
  unfold create createTail add_parent layoutApp
  have hg : ¬ (PRef.art p = PRef.art j) := by simpa using hpj
  simp [pyTruthyRecords, hb, hl, hg, pyTruthyNat]

theorem create_bits_miss (s : Excv) (p : Nat) (b : Bytes)
    (hl : hLookup s.hashes (sha256hex b) = none) (hb : b ≠ []) (hp : p < s.arts.length) :
    create s p (some b) none none none =
      .ok s.arts.length
        (add_artifact
          (updArt
            (updArt { s with arts := s.arts ++
                [⟨b, sha256hex b, [], [], none, [], [], [], [], false, []⟩] }
              s.arts.length (fun a => { a with parents := a.parents ++ [PRef.art p] }))
            p (fun a => { a with children := a.children ++ [s.arts.length] }))
          s.arts.length) := by
  unfold create createTail artifactInit add_parent layoutApp
  have hbl : ¬ b.length = 0 := by simpa using hb
  have hg : ¬ (PRef.art p = PRef.art s.arts.length) := by
    simp only [PRef.art.injEq]
    omega
  simp [pyTruthyRecords, hb, hl, hbl, hg, pyTruthyNat]

/-- C1 amended: for every nonempty byte sequence `b` whose digest differs
from both callers' own digests, `create(bits=b)` on `p1` and then on `p2`
yields the same artifact id; exactly one `top.hashes` entry carries digest
SHA-256(b); and each call appended its caller to that artifact's `parents`
and the artifact to the caller's `children`.  (The exclusions are forced by
`C1_counterexample`: `b = b""` raises `TypeError`, and `b` hashing to a
caller's own digest aborts in `add_parent` — the C10 edge case.) -/
theorem C1_content_addressed (s : Excv) (p1 p2 : Nat) (a1 a2 : Art) (b : Bytes)
    (h1 : getArt s p1 = some a1) (h2 : getArt s p2 = some a2) (hb : b ≠ [])
    (hd1 : sha256hex b ≠ a1.digest) (hd2 : sha256hex b ≠ a2.digest)
    (hwf : WF s) :
    ∃ j s1 s2,
      create s p1 (some b) none none none = .ok j s1 ∧
      create s1 p2 (some b) none none none = .ok j s2 ∧
      hLookup s2.hashes (sha256hex b) = some j ∧
      countKeys s2 (sha256hex b) = 1 ∧
      digestOf s2 j = sha256hex b ∧
      (∃ pre, parentsOf s2 j = pre ++ [PRef.art p1, PRef.art p2]) ∧
      j ∈ childrenOf s2 p1 ∧ j ∈ childrenOf s2 p2 := by
  have hp1len : p1 < s.arts.length := (List.get?_eq_some.mp h1).1
  have hp2len : p2 < s.arts.length := (List.get?_eq_some.mp h2).1
  have hdig1 : digestOf s p1 = a1.digest := by unfold digestOf; rw [h1]; rfl
  have hdig2 : digestOf s p2 = a2.digest := by unfold digestOf; rw [h2]; rfl
  cases hl : hLookup s.hashes (sha256hex b) with
  | some j0 =>
    have hmem := hLookup_mem s.hashes (sha256hex b) j0 hl
    obtain ⟨hj0len, hj0dig⟩ := hwf.1 (sha256hex b, j0) hmem
    have hne1 : p1 ≠ j0 := by
      intro he
      subst he
      exact hd1 (by rw [← hdig1, hj0dig])
    have hne2 : p2 ≠ j0 := by
      intro he
      subst he
      exact hd2 (by rw [← hdig2, hj0dig])
    obtain ⟨aj0, hg0⟩ : ∃ x, getArt s j0 = some x := by
      cases hg0 : getArt s j0 with
      | none => exact absurd (List.get?_eq_none.mp hg0) (Nat.not_le.mpr hj0len)
      | some x => exact ⟨x, rfl⟩
    set s1 := updArt (updArt s j0
      (fun a => { a with parents := a.parents ++ [PRef.art p1] }))
      p1 (fun a => { a with children := a.children ++ [j0] }) with hs1
    have hc1 : create s p1 (some b) none none none = .ok j0 s1 :=
      create_bits_hit s p1 j0 b hl hb hne1
    have hhash1 : s1.hashes = s.hashes := by
      rw [hs1, hashes_updArt, hashes_updArt]
    have hlen1 : s1.arts.length = s.arts.length := by
      rw [hs1, arts_length_updArt, arts_length_updArt]
    have hl1 : hLookup s1.hashes (sha256hex b) = some j0 := by rw [hhash1]; exact hl
    set s2 := updArt (updArt s1 j0
      (fun a => { a with parents := a.parents ++ [PRef.art p2] }))
      p2 (fun a => { a with children := a.children ++ [j0] }) with hs2
    have hc2 : create s1 p2 (some b) none none none = .ok j0 s2 :=
      create_bits_hit s1 p2 j0 b hl1 hb hne2
    have hhash2 : s2.hashes = s.hashes := by
      rw [hs2, hashes_updArt, hashes_updArt, hhash1]
    obtain ⟨aj1, hg1⟩ : ∃ x, getArt s1 j0 = some x := by
      cases hg1 : getArt s1 j0 with
      | none =>
        exact absurd (List.get?_eq_none.mp hg1) (by rw [hlen1]; exact Nat.not_le.mpr hj0len)
      | some x => exact ⟨x, rfl⟩
    obtain ⟨ap2, hgp2⟩ : ∃ x, getArt s1 p2 = some x := by
      cases hgp2 : getArt s1 p2 with
      | none =>
        exact absurd (List.get?_eq_none.mp hgp2) (by rw [hlen1]; exact Nat.not_le.mpr hp2len)
      | some x => exact ⟨x, rfl⟩
    refine ⟨j0, s1, s2, hc1, hc2, by rw [hhash2]; exact hl, ?_, ?_, ?_, ?_, ?_⟩
    · unfold countKeys
      rw [hhash2]
      exact List.count_eq_one_of_mem hwf.2
        (List.mem_map.mpr ⟨(sha256hex b, j0), hmem, rfl⟩)
    · rw [hs2, digestOf_updArt_childAdd, digestOf_updArt_parentAdd,
        hs1, digestOf_updArt_childAdd, digestOf_updArt_parentAdd]
      exact hj0dig
    · refine ⟨parentsOf s j0, ?_⟩
      rw [hs2, parentsOf_updArt_childAdd,
        parentsOf_updArt_parentAdd s1 j0 (PRef.art p2) aj1 hg1,
        hs1, parentsOf_updArt_childAdd,
        parentsOf_updArt_parentAdd s j0 (PRef.art p1) aj0 hg0,
        List.append_assoc]
      rfl
    · have hstep : j0 ∈ childrenOf s1 p1 := by
        rw [hs1, childrenOf_updArt_childAdd _ p1 j0 a1
          (by rw [getArt_updArt_ne s j0 _ p1 (Ne.symm hne1)]; exact h1)]
        exact List.mem_append_right _ (List.mem_singleton_self j0)
      rw [hs2]
      exact childrenOf_mem_updArt _ p2 _ j0 p1 (fun a => ⟨[j0], rfl⟩)
        (childrenOf_mem_updArt _ j0 _ j0 p1 (fun a => ⟨[], by simp⟩) hstep)
    · rw [hs2, childrenOf_updArt_childAdd _ p2 j0 ap2
        (by rw [getArt_updArt_ne s1 j0 _ p2 (Ne.symm hne2)]; exact hgp2)]
      exact List.mem_append_right _ (List.mem_singleton_self j0)
  | none =>
    set newA : Art := ⟨b, sha256hex b, [], [], none, [], [], [], [], false, []⟩ with hnewA
    set sApp : Excv := { s with arts := s.arts ++ [newA] } with hsApp
    set inner : Excv := updArt (updArt sApp s.arts.length
      (fun a => { a with parents := a.parents ++ [PRef.art p1] }))
      p1 (fun a => { a with children := a.children ++ [s.arts.length] }) with hinner
    set s1 : Excv := add_artifact inner s.arts.length with hs1
    have hc1 : create s p1 (some b) none none none = .ok s.arts.length s1 :=
      create_bits_miss s p1 b hl hb hp1len
    have hgApp : getArt sApp s.arts.length = some newA := getArt_append_self s newA
    have hgInner : getArt inner s.arts.length =
        some { newA with parents := [] ++ [PRef.art p1] } := by
      rw [hinner, getArt_updArt_ne _ p1 _ s.arts.length (Nat.ne_of_lt hp1len),
        getArt_updArt_self sApp s.arts.length _ newA hgApp]
    have hhashInner : inner.hashes = s.hashes := by
      rw [hinner, hashes_updArt, hashes_updArt]
    have hhash1 : s1.hashes = s.hashes ++ [(sha256hex b, s.arts.length)] := by
      rw [hs1, hashes_add_artifact inner s.arts.length _ hgInner, hhashInner]
    have hlenApp : sApp.arts.length = s.arts.length + 1 := by
      rw [hsApp]; simp
    have hlen1 : s1.arts.length = s.arts.length + 1 := by
      rw [hs1, arts_length_add_artifact, hinner, arts_length_updArt, arts_length_updArt,
        hlenApp]
    have hl1 : hLookup s1.hashes (sha256hex b) = some s.arts.length := by
      rw [hhash1]
      exact hLookup_append_none s.hashes (sha256hex b) s.arts.length hl
    have hne2 : p2 ≠ s.arts.length := Nat.ne_of_lt hp2len
    set s2 := updArt (updArt s1 s.arts.length
      (fun a => { a with parents := a.parents ++ [PRef.art p2] }))
      p2 (fun a => { a with children := a.children ++ [s.arts.length] }) with hs2
    have hc2 : create s1 p2 (some b) none none none = .ok s.arts.length s2 :=
      create_bits_hit s1 p2 s.arts.length b hl1 hb hne2
    have hhash2 : s2.hashes = s1.hashes := by
      rw [hs2, hashes_updArt, hashes_updArt]
    have hg1new : getArt s1 s.arts.length = some { newA with parents := [] ++ [PRef.art p1] } := by
      rw [hs1, getArt_add_artifact]
      exact hgInner
    obtain ⟨ap2, hgp2⟩ : ∃ x, getArt s1 p2 = some x := by
      cases hgp2 : getArt s1 p2 with
      | none =>
        refine absurd (List.get?_eq_none.mp hgp2) ?_
        rw [hlen1]
        omega
      | some x => exact ⟨x, rfl⟩
    refine ⟨s.arts.length, s1, s2, hc1, hc2, ?_, ?_, ?_, ?_, ?_, ?_⟩
    · rw [hhash2]
      exact hl1
    · unfold countKeys
      rw [hhash2, hhash1]
      rw [List.map_append, List.count_append]
      rw [List.count_eq_zero_of_not_mem (hLookup_none_not_mem s.hashes _ hl)]
      simp
    · rw [hs2, digestOf_updArt_childAdd, digestOf_updArt_parentAdd]
      unfold digestOf
      rw [hg1new]
      rfl
    · refine ⟨[], ?_⟩
      rw [hs2, parentsOf_updArt_childAdd,
        parentsOf_updArt_parentAdd s1 s.arts.length (PRef.art p2) _ hg1new]
      have : parentsOf s1 s.arts.length = [] ++ [PRef.art p1] := by
        unfold parentsOf
        rw [hg1new]
        rfl
      rw [this]
      rfl
    · have hstep0 : s.arts.length ∈ childrenOf inner p1 := by
        rw [hinner, childrenOf_updArt_childAdd _ p1 s.arts.length a1
          (by
            rw [getArt_updArt_ne _ s.arts.length _ p1 (Ne.symm (Nat.ne_of_lt hp1len))]
            rw [hsApp]
            rw [getArt_append s newA p1 hp1len]
            exact h1)]
        exact List.mem_append_right _ (List.mem_singleton_self _)
      have hstep1 : s.arts.length ∈ childrenOf s1 p1 := by
        rw [hs1]
        exact childrenOf_mem_add_artifact inner s.arts.length _ p1 hstep0
      rw [hs2]
      exact childrenOf_mem_updArt _ p2 _ _ p1 (fun a => ⟨[s.arts.length], rfl⟩)
        (childrenOf_mem_updArt _ s.arts.length _ _ p1 (fun a => ⟨[], by simp⟩) hstep1)
    · rw [hs2, childrenOf_updArt_childAdd _ p2 s.arts.length ap2
        (by rw [getArt_updArt_ne s1 s.arts.length _ p2 (Ne.symm hne2)]; exact hgp2)]
      exact List.mem_append_right _ (List.mem_singleton_self _)

/-- C1 counterexample: "for every byte sequence b and any two parents" is
too strong.  With `b` equal to the caller's own content the dedup hit path
aborts in `add_parent` (no artifact handle is returned), and with
`b = b""` the call raises `TypeError` — in neither case does a shared
artifact with both parents result. -/
theorem C1_counterexample :
    create (mkTop [89]) 0 (some [89]) none none none = .err .assertError (mkTop [89]) ∧
    create (mkTop [89]) 0 (some ([] : Bytes)) none none none = .err .typeError (mkTop [89]) := by
  exact ⟨by decide, rfl⟩

/-- A well-formed two-artifact excavation used to witness C1: two top-level
artifacts `b"P"` and `b"Q"`. -/
def c1wState : Excv :=
  { arts := [⟨[80], sha256hex [80], [PRef.exc], [], none, [], [], [], [], false, []⟩,
             ⟨[81], sha256hex [81], [PRef.exc], [], none, [], [], [], [], false, []⟩],
    hashes := [(sha256hex [80], 0), (sha256hex [81], 1)], names := [], index := [],
    excChildren := [0, 1], top_level := [0, 1], digestPfx := 8 }

/-- Witness for C1: both top-level artifacts derive `b"Z"`; a single shared
child results, with both parents recorded. -/
theorem C1_content_addressed_witness :
    ∃ j s1 s2,
      create c1wState 0 (some [90]) none none none = .ok j s1 ∧
      create s1 1 (some [90]) none none none = .ok j s2 ∧
      hLookup s2.hashes (sha256hex [90]) = some j ∧
      countKeys s2 (sha256hex [90]) = 1 ∧
      digestOf s2 j = sha256hex [90] ∧
      (∃ pre, parentsOf s2 j = pre ++ [PRef.art 0, PRef.art 1]) ∧
      j ∈ childrenOf s2 0 ∧ j ∈ childrenOf s2 1 :=
  C1_content_addressed c1wState 0 1
    ⟨[80], sha256hex [80], [PRef.exc], [], none, [], [], [], [], false, []⟩
    ⟨[81], sha256hex [81], [PRef.exc], [], none, [], [], [], [], false, []⟩
    [90] rfl rfl (by decide) (by decide) (by decide) (by decide)

/-! ## Claim C2: coverage reconciliation -/

theorem insertE_mem (s : Excv) (x : LEntry) :
    ∀ l r, insertE s x l = .ok r → ∀ e, e ∈ r ↔ e = x ∨ e ∈ l := by
  intro l
  induction l with
  | nil =>
    intro r hr e
    have hx : Except.ok [x] = Except.ok (ε := PyErr) r := hr
    cases hx
    simp
  | cons y ys ih =>
    intro r hr e
    unfold insertE at hr
    cases hc : entryLt s x y with
    | error e' =>
      rw [hc] at hr
      exact Except.noConfusion (hr : (Except.error e' : Except PyErr (List LEntry)) = .ok r)
    | ok b =>
      rw [hc] at hr
      cases b with
      | true =>
        have hx : Except.ok (x :: y :: ys) = Except.ok (ε := PyErr) r := hr
        cases hx
        simp [List.mem_cons]
      | false =>
        cases hrec : insertE s x ys with
        | error e' =>
          rw [hrec] at hr
          exact Except.noConfusion (hr : (Except.error e' : Except PyErr (List LEntry)) = .ok r)
        | ok r' =>
          rw [hrec] at hr
          have hx : Except.ok (y :: r') = Except.ok (ε := PyErr) r := hr
          cases hx
          have := ih r' hrec e
          simp [List.mem_cons, this]
          tauto

theorem sortedE_mem_aux (s : Excv) :
    ∀ (l : List LEntry) (acc r : List LEntry),
      l.foldlM (fun acc x => insertE s x acc) acc = .ok r →
      ∀ e, e ∈ r ↔ e ∈ acc ∨ e ∈ l := by
  intro l
  induction l with
  | nil =>
    intro acc r hr e
    have hx : Except.ok acc = Except.ok (ε := PyErr) r := hr
    cases hx
    simp
  | cons x xs ih =>
    intro acc r hr e
    rw [List.foldlM_cons] at hr
    cases hins : insertE s x acc with
    | error e' =>
      rw [hins] at hr
      exact Except.noConfusion
        (hr : (Except.error e' : Except PyErr (List LEntry)) = .ok r)
    | ok acc' =>
      rw [hins] at hr
      have h1 := ih acc' r hr e
      have h2 := insertE_mem s x acc acc' hins e
      rw [h1, h2]
      simp [List.mem_cons]
      tauto

theorem sortedE_mem (s : Excv) (l sl : List LEntry) (h : sortedE s l = .ok sl) :
    ∀ e, e ∈ sl ↔ e ∈ l := by
  intro e
  have := sortedE_mem_aux s l [] sl h e
  simpa using this

theorem walk_gaps_mono (l : List LEntry) (acc : Nat × List (Nat × Nat)) :
    ∃ suffix, (l.foldl walkStep acc).2 = acc.2 ++ suffix := by
  induction l generalizing acc with
  | nil => exact ⟨[], by simp⟩
  | cons e rest ih =>
    rw [List.foldl_cons]
    obtain ⟨suf, hsuf⟩ := ih (walkStep acc e)
    obtain ⟨o1, o2, c⟩ := e
    cases o1 with
    | none => exact ⟨suf, by simpa [walkStep] using hsuf⟩
    | some st =>
      cases o2 with
      | none => exact ⟨suf, by simpa [walkStep] using hsuf⟩
      | some sp =>
        by_cases hlt : acc.1 < st
        · refine ⟨(acc.1, st) :: suf, ?_⟩
          rw [hsuf]
          simp [walkStep, hlt]
        · refine ⟨suf, ?_⟩
          rw [hsuf]
          simp [walkStep, hlt]

theorem walk_cover (l : List LEntry) (acc : Nat × List (Nat × Nat)) (k : Nat)
    (hk : k < (l.foldl walkStep acc).1) :
    k < acc.1 ∨ concIn l k ∨ ∃ g ∈ (l.foldl walkStep acc).2, g.1 ≤ k ∧ k < g.2 := by
  induction l generalizing acc with
  | nil => exact Or.inl hk
  | cons e rest ih =>
    rw [List.foldl_cons] at hk ⊢
    rcases ih (walkStep acc e) hk with h1 | h2 | h3
    · obtain ⟨o1, o2, c⟩ := e
      cases o1 with
      | none => exact Or.inl h1
      | some st =>
        cases o2 with
        | none => exact Or.inl h1
        | some sp =>
          have hsp : k < sp := by simpa [walkStep] using h1
          by_cases hks : st ≤ k
          · refine Or.inr (Or.inl ⟨(some st, some sp, c), List.mem_cons_self _ _, ?_⟩)
            simp [entryCovers, hks, hsp]
          · by_cases hacc : acc.1 < st
            · by_cases hka : k < acc.1
              · exact Or.inl hka
              · refine Or.inr (Or.inr ?_)
                obtain ⟨suf, hsuf⟩ := walk_gaps_mono rest (walkStep acc (some st, some sp, c))
                refine ⟨(acc.1, st), ?_, Nat.le_of_not_lt hka, Nat.lt_of_not_le hks⟩
                rw [hsuf]
                refine List.mem_append_left _ ?_
                simp [walkStep, hacc]
            · exact Or.inl (Nat.lt_of_lt_of_le (Nat.lt_of_not_le hks) (Nat.le_of_not_lt hacc))
    · exact Or.inr (Or.inl ⟨h2.choose, List.mem_cons_of_mem _ h2.choose_spec.1, h2.choose_spec.2⟩)
    · exact Or.inr (Or.inr h3)

theorem walk_skip (l : List LEntry) (acc : Nat × List (Nat × Nat))
    (h : ∀ e ∈ l, isConc e = false) : l.foldl walkStep acc = acc := by
  induction l generalizing acc with
  | nil => rfl
  | cons e rest ih =>
    rw [List.foldl_cons]
    have he := h e (List.mem_cons_self _ _)
    have hstep : walkStep acc e = acc := by
      obtain ⟨o1, o2, c⟩ := e
      cases o1 with
      | none => rfl
      | some st =>
        cases o2 with
        | none => rfl
        | some sp => simp [isConc] at he
    rw [hstep]
    exact ih _ (fun x hx => h x (List.mem_cons_of_mem _ hx))

theorem walk_final_stop_mem (l : List LEntry) (acc : Nat × List (Nat × Nat))
    (hex : ∃ e ∈ l, isConc e = true) :
    ∃ e ∈ l, isConc e = true ∧ ∃ sp, e.2.1 = some sp ∧ (l.foldl walkStep acc).1 = sp := by
  induction l generalizing acc with
  | nil =>
    obtain ⟨e, he, _⟩ := hex
    simp at he
  | cons e rest ih =>
    rw [List.foldl_cons]
    by_cases hrest : ∃ e' ∈ rest, isConc e' = true
    · obtain ⟨e', he', hc', sp, hsp, hfin⟩ := ih (walkStep acc e) hrest
      exact ⟨e', List.mem_cons_of_mem _ he', hc', sp, hsp, hfin⟩
    · have hnc : ∀ x ∈ rest, isConc x = false := by
        intro x hx
        by_contra hb
        refine hrest ⟨x, hx, ?_⟩
        revert hb
        cases isConc x <;> simp
      rw [walk_skip rest _ hnc]
      obtain ⟨e0, he0, hc0⟩ := hex
      rcases List.mem_cons.mp he0 with he0' | he0'
      · subst he0'
        obtain ⟨o1, o2, c⟩ := e0
        unfold isConc at hc0
        simp only [Bool.and_eq_true] at hc0
        obtain ⟨st, h1⟩ := Option.isSome_iff_exists.mp hc0.1
        obtain ⟨sp, h2⟩ := Option.isSome_iff_exists.mp hc0.2
        subst h1
        subst h2
        refine ⟨(some st, some sp, c), List.mem_cons_self _ _, by simp [isConc], sp, rfl, ?_⟩
        simp [walkStep]
      · exact absurd ⟨e0, he0', hc0⟩ hrest

theorem walk_gap_shape (l : List LEntry) (acc : Nat × List (Nat × Nat)) (B : Nat)
    (hB : ∀ e ∈ l, ∀ st sp, e.1 = some st → e.2.1 = some sp → st < B) :
    ∀ g ∈ (l.foldl walkStep acc).2, g ∈ acc.2 ∨ (g.1 < g.2 ∧ g.2 < B) := by
  induction l generalizing acc with
  | nil => intro g hg; exact Or.inl hg
  | cons e rest ih =>
    rw [List.foldl_cons]
    intro g hg
    rcases ih (walkStep acc e) (fun x hx => hB x (List.mem_cons_of_mem _ hx)) g hg with h1 | h2
    · obtain ⟨o1, o2, c⟩ := e
      cases o1 with
      | none => exact Or.inl h1
      | some st =>
        cases o2 with
        | none => exact Or.inl h1
        | some sp =>
          by_cases hlt : acc.1 < st
          · simp only [walkStep, if_pos hlt] at h1
            rcases List.mem_append.mp h1 with hin | hin
            · exact Or.inl hin
            · have hga : g = (acc.1, st) := by simpa using hin
              subst hga
              exact Or.inr ⟨hlt,
                hB (some st, some sp, c) (List.mem_cons_self _ _) st sp rfl rfl⟩
          · simp only [walkStep, if_neg hlt] at h1
            exact Or.inl h1
    · exact Or.inr h2

theorem create_gap_spec (s : Excv) (i : Nat) (a : Art) (st sp : Nat)
    (h : getArt s i = some a) (h1 : st < sp) (h2 : sp ≤ a.bdx.length)
    (h3 : ¬(st = 0 ∧ sp = a.bdx.length)) :
    (∃ e s', create s i none (some st) (some sp) none = .err e s') ∨
    (∃ j s', create s i none (some st) (some sp) none = .ok j s' ∧
      getArt s' i = some { a with children := a.children ++ [j], layout := a.layout ++ [(some st, some sp, j)] }) := by
  have hsp0 : sp ≠ 0 := by omega
  have hblen : ((a.bdx.drop st).take (sp - st)).length ≠ 0 := by
    have hd : (a.bdx.drop st).length = a.bdx.length - st := List.length_drop st a.bdx
    have ht : ((a.bdx.drop st).take (sp - st)).length =
        min (sp - st) (a.bdx.length - st) := by
      rw [List.length_take, hd]
    omega
  have hred : create s i none (some st) (some sp) none =
      createTail s i (sha256hex ((a.bdx.drop st).take (sp - st)))
        ((a.bdx.drop st).take (sp - st)) (some st) (some sp) := by
    unfold create createSlice
    simp [pyTruthyRecords, pyGtON, pyLtON, h1, h, h2, h3]
  set b := (a.bdx.drop st).take (sp - st) with hb
  cases hl : hLookup s.hashes (sha256hex b) with
  | some j =>
    by_cases hji : j = i
    · refine Or.inl ⟨.assertError, s, ?_⟩
      subst hji
      rw [hred]
      unfold createTail add_parent
      simp [hl]
    · refine Or.inr ⟨j,
        updArt (updArt (updArt s j
          (fun x => { x with parents := x.parents ++ [PRef.art i] }))
          i (fun x => { x with children := x.children ++ [j] }))
          i (fun x => { x with layout := x.layout ++ [(some st, some sp, j)] }), ?_, ?_⟩
      · rw [hred]
        unfold createTail add_parent layoutApp
        have hgne : ¬ (PRef.art i = PRef.art j) := by simpa using fun he => hji he.symm
        simp [hl, hgne, pyTruthyNat, hsp0]
      · have hmid : getArt (updArt (updArt s j
            (fun x => { x with parents := x.parents ++ [PRef.art i] }))
            i (fun x => { x with children := x.children ++ [j] })) i =
            some { a with children := a.children ++ [j] } := by
          rw [getArt_updArt_self _ i _ a
            (by rw [getArt_updArt_ne s j _ i hji]; exact h)]
        rw [getArt_updArt_self _ i _ { a with children := a.children ++ [j] } hmid]
  | none =>
    have hilen : i < s.arts.length := (List.get?_eq_some.mp h).1
    have hine : i ≠ s.arts.length := Nat.ne_of_lt hilen
    refine Or.inr ⟨s.arts.length,
      updArt (add_artifact
        (updArt (updArt { s with arts := s.arts ++
            [⟨b, sha256hex b, [], [], none, [], [], [], [], false, []⟩] }
          s.arts.length (fun x => { x with parents := x.parents ++ [PRef.art i] }))
          i (fun x => { x with children := x.children ++ [s.arts.length] }))
        s.arts.length)
        i (fun x => { x with layout := x.layout ++ [(some st, some sp, s.arts.length)] }), ?_, ?_⟩
    · rw [hred]
      unfold createTail artifactInit add_parent layoutApp
      have hgne : ¬ (PRef.art i = PRef.art s.arts.length) := by
        simpa using hine
      simp [hl, hblen, hgne, pyTruthyNat, hsp0]
    · have hmid : getArt (add_artifact
          (updArt (updArt { s with arts := s.arts ++
              [⟨b, sha256hex b, [], [], none, [], [], [], [], false, []⟩] }
            s.arts.length (fun x => { x with parents := x.parents ++ [PRef.art i] }))
            i (fun x => { x with children := x.children ++ [s.arts.length] }))
          s.arts.length) i = some { a with children := a.children ++ [s.arts.length] } := by
        rw [getArt_add_artifact]
        rw [getArt_updArt_self _ i _ a
          (by
            rw [getArt_updArt_ne _ s.arts.length _ i (Ne.symm hine)]
            rw [getArt_append s _ i hilen]
            exact h)]
      rw [getArt_updArt_self _ i _ { a with children := a.children ++ [s.arts.length] } hmid]

theorem gapLoop_spec :
    ∀ (gaps : List (Nat × Nat)) (s : Excv) (i : Nat) (a : Art),
      getArt s i = some a →
      (∀ g ∈ gaps, g.1 < g.2 ∧ g.2 ≤ a.bdx.length ∧ ¬(g.1 = 0 ∧ g.2 = a.bdx.length)) →
      ∀ s', gapLoop s i gaps = .ok () s' →
      ∃ a', getArt s' i = some a' ∧ a'.bdx = a.bdx ∧
        ∃ entries, a'.layout = a.layout ++ entries ∧
          ∀ g ∈ gaps, ∃ j, (some g.1, some g.2, j) ∈ entries := by
  intro gaps
  induction gaps with
  | nil =>
    intro s i a h _ s' hrun
    have hx : Res.ok () s = Res.ok () s' := hrun
    cases hx
    exact ⟨a, h, rfl, [], by simp, by simp⟩
  | cons g rest ih =>
    intro s i a h hg s' hrun
    obtain ⟨ga, gb⟩ := g
    obtain ⟨hg1, hg2, hg3⟩ := hg (ga, gb) (List.mem_cons_self _ _)
    rcases create_gap_spec s i a ga gb h hg1 hg2 hg3 with ⟨e, se, herr⟩ | ⟨j, s1, hok, hget⟩
    · unfold gapLoop at hrun
      rw [herr] at hrun
      exact Res.noConfusion hrun
    · unfold gapLoop at hrun
      rw [hok] at hrun
      obtain ⟨a', hga', hbdx, entries1, hlay, hcov⟩ :=
        ih s1 i { a with children := a.children ++ [j], layout := a.layout ++ [(some ga, some gb, j)] }
          hget (by
            intro g' hg'
            obtain ⟨k1, k2, k3⟩ := hg (g') (List.mem_cons_of_mem _ hg')
            exact ⟨k1, k2, k3⟩)
          s' hrun
      refine ⟨a', hga', by simpa using hbdx, (some ga, some gb, j) :: entries1, ?_, ?_⟩
      · rw [hlay]
        simp
      · intro g' hg'
        rcases List.mem_cons.mp hg' with hge | hge
        · subst hge
          exact ⟨j, List.mem_cons_self _ _⟩
        · obtain ⟨j', hj'⟩ := hcov g' hge
          exact ⟨j', List.mem_cons_of_mem _ hj'⟩

/-- C2 amended: consider an artifact whose layout has at least one entry
with BOTH endpoints concrete, every such fully-concrete entry satisfying
`start < stop ≤ len(A)`.  If `examined()` then returns normally, every
byte of `[0, len(A))` lies in a concrete layout range or in one of the gap
entries `examined()` appended to the layout.  And when no entry is fully
concrete, `examined()` changes nothing (the cursor never moves, or
`sorted` raises first — either way the state is the entry state).  The
strengthenings over the claim are forced by `C2_counterexample`: an entry
with a concrete start but `stop=None` is skipped by the walk, an entry
with `stop ≤ start` can zero the cursor making `examined()` return having
created nothing, and an entry with `stop > len(A)` aborts `examined()`
part-way. -/
theorem C2_coverage (s : Excv) (i : Nat) (a : Art)
    (h : getArt s i = some a)
    (hwfL : ∀ e ∈ a.layout, ∀ st sp, e.1 = some st → e.2.1 = some sp →
      st < sp ∧ sp ≤ a.bdx.length) :
    ((∃ e ∈ a.layout, isConc e = true) →
      ∀ s', examined s i = .ok () s' →
        ∀ k, k < a.bdx.length →
          concIn a.layout k ∨
          ∃ e ∈ (layoutOf s' i).drop a.layout.length, entryCovers e k = true) ∧
    ((∀ e ∈ a.layout, isConc e = false) → resState (examined s i) = s) := by
  constructor
  · intro hex s' hrun k hk
    unfold examined at hrun
    rw [h] at hrun
    dsimp only at hrun
    cases hs : sortedE s a.layout with
    | error e =>
      rw [hs] at hrun
      exact Res.noConfusion hrun
    | ok sl =>
      rw [hs] at hrun
      dsimp only at hrun
      have hconc_sl : ∃ e ∈ sl, isConc e = true := by
        obtain ⟨e0, he0, hc0⟩ := hex
        exact ⟨e0, (sortedE_mem s a.layout sl hs e0).mpr he0, hc0⟩
      obtain ⟨efin, hefin, hcfin, spfin, hspfin, hfin⟩ :=
        walk_final_stop_mem sl (0, []) hconc_sl
      have hefin_lay : efin ∈ a.layout := (sortedE_mem s a.layout sl hs efin).mp hefin
      obtain ⟨stfin, hstfin⟩ : ∃ x, efin.1 = some x := by
        unfold isConc at hcfin
        simp only [Bool.and_eq_true] at hcfin
        exact Option.isSome_iff_exists.mp hcfin.1
      obtain ⟨hfin1, hfin2⟩ := hwfL efin hefin_lay stfin spfin hstfin hspfin
      have hw1ne : ¬ ((sl.foldl walkStep (0, [])).1 = 0) := by
        rw [hfin]
        omega
      rw [if_neg hw1ne] at hrun
      have hB : ∀ e ∈ sl, ∀ st sp, e.1 = some st → e.2.1 = some sp →
          st < a.bdx.length := by
        intro e he st sp h1 h2
        obtain ⟨k1, k2⟩ := hwfL e ((sortedE_mem s a.layout sl hs e).mp he) st sp h1 h2
        omega
      have hgaps : ∀ g ∈ (if (sl.foldl walkStep (0, [])).1 ≠ a.bdx.length then
            (sl.foldl walkStep (0, [])).2 ++ [((sl.foldl walkStep (0, [])).1, a.bdx.length)]
          else (sl.foldl walkStep (0, [])).2),
          g.1 < g.2 ∧ g.2 ≤ a.bdx.length ∧ ¬(g.1 = 0 ∧ g.2 = a.bdx.length) := by
        intro g hgL
        have hmid : g ∈ (sl.foldl walkStep (0, [])).2 ∨
            g = ((sl.foldl walkStep (0, [])).1, a.bdx.length) ∧
              (sl.foldl walkStep (0, [])).1 ≠ a.bdx.length := by
          by_cases hcnd : (sl.foldl walkStep (0, [])).1 ≠ a.bdx.length
          · rw [if_pos hcnd] at hgL
            rcases List.mem_append.mp hgL with h' | h'
            · exact Or.inl h'
            · exact Or.inr ⟨by simpa using h', hcnd⟩
          · rw [if_neg hcnd] at hgL
            exact Or.inl hgL
        rcases hmid with hin | ⟨hg', hne⟩
        · rcases walk_gap_shape sl (0, []) a.bdx.length hB g hin with habs | ⟨k1, k2⟩
          · simp at habs
          · exact ⟨k1, by omega, by omega⟩
        · subst hg'
          rw [hfin]
          refine ⟨?_, ?_, ?_⟩
          · rw [hfin] at hne
            omega
          · omega
          · rw [hfin] at hne
            omega
      obtain ⟨a', hga', hbdx, entries, hlay, hcov⟩ :=
        gapLoop_spec _ s i a h hgaps s' hrun
      have hdrop : (layoutOf s' i).drop a.layout.length = entries := by
        unfold layoutOf
        rw [hga']
        show a'.layout.drop a.layout.length = entries
        rw [hlay]
        exact List.drop_left _ _
      by_cases hkw : k < (sl.foldl walkStep (0, [])).1
      · rcases walk_cover sl (0, []) k hkw with h0 | hcc | ⟨g, hgmem, hgk1, hgk2⟩
        · omega
        · obtain ⟨e0, he0, hc0⟩ := hcc
          exact Or.inl ⟨e0, (sortedE_mem s a.layout sl hs e0).mp he0, hc0⟩
        · right
          have hgL : g ∈ (if (sl.foldl walkStep (0, [])).1 ≠ a.bdx.length then
              (sl.foldl walkStep (0, [])).2 ++ [((sl.foldl walkStep (0, [])).1, a.bdx.length)]
            else (sl.foldl walkStep (0, [])).2) := by
            by_cases hcnd : (sl.foldl walkStep (0, [])).1 ≠ a.bdx.length
            · rw [if_pos hcnd]
              exact List.mem_append_left _ hgmem
            · rw [if_neg hcnd]
              exact hgmem
          obtain ⟨j, hj⟩ := hcov g hgL
          refine ⟨(some g.1, some g.2, j), by rw [hdrop]; exact hj, ?_⟩
          simp [entryCovers, hgk1, hgk2]
      · right
        have hwlen : (sl.foldl walkStep (0, [])).1 ≠ a.bdx.length := by omega
        have htrail : ((sl.foldl walkStep (0, [])).1, a.bdx.length) ∈
            (if (sl.foldl walkStep (0, [])).1 ≠ a.bdx.length then
              (sl.foldl walkStep (0, [])).2 ++ [((sl.foldl walkStep (0, [])).1, a.bdx.length)]
            else (sl.foldl walkStep (0, [])).2) := by
          rw [if_pos hwlen]
          exact List.mem_append_right _ (List.mem_singleton_self _)
        obtain ⟨j, hj⟩ := hcov _ htrail
        refine ⟨(some (sl.foldl walkStep (0, [])).1, some a.bdx.length, j),
          by rw [hdrop]; exact hj, ?_⟩
        simp only [entryCovers]
        have : (sl.foldl walkStep (0, [])).1 ≤ k := Nat.le_of_not_lt hkw
        simp [this, hk]
  · intro hnone
    unfold examined
    rw [h]
    dsimp only
    cases hs : sortedE s a.layout with
    | error e => rfl
    | ok sl =>
      dsimp only
      have hsk : sl.foldl walkStep (0, []) = (0, []) :=
        walk_skip sl (0, []) (fun e he => hnone e ((sortedE_mem s a.layout sl hs e).mp he))
      rw [hsk]
      rfl

/-- Run A for the C2 counterexample: an 8-byte artifact whose only layout
entry `(5, None, c)` has a concrete start but no concrete stop (from
`create(bits=b"Q", start=5)`). -/
def c2aState : Excv :=
  resState (create (mkTop [65,65,65,65,66,66,66,66]) 0 (some [81]) (some 5) none none)

/-- Run B: the only layout entry is the fully-concrete but degenerate
`(5, 0, c)` (from `create(bits=b"Q", start=5, stop=0)`). -/
def c2bState : Excv :=
  resState (create (mkTop [65,65,65,65,66,66,66,66]) 0 (some [81]) (some 5) (some 0) none)

/-- Run C: the only layout entry `(2, 200, c)` overruns the artifact (from
`create(bits=b"Q", start=2, stop=200)`). -/
def c2cState : Excv :=
  resState (create (mkTop [65,65,65,65,66,66,66,66]) 0 (some [81]) (some 2) (some 200) none)

/-- C2 counterexample.  Run A: the layout has an entry with a concrete
start, yet `examined()` returns leaving the state untouched — byte 0 is
covered by nothing, refuting the claim as stated.  Run B: even with a
fully-concrete entry `(5,0)`, the walk ends with `offset = 0`, `examined()`
returns unchanged, and byte 0 is uncovered.  Run C: an in-layout stop
beyond `len(A)` makes `examined()` abort with an assertion error, so no
after-state exists at all. -/
theorem C2_counterexample :
    (∃ e ∈ layoutOf c2aState 0, e.1 = some 5) ∧
    examined c2aState 0 = .ok () c2aState ∧
    0 < lenOf c2aState 0 ∧ ¬ concIn (layoutOf c2aState 0) 0 ∧
    (∃ e ∈ layoutOf c2bState 0, isConc e = true) ∧
    examined c2bState 0 = .ok () c2bState ∧
    0 < lenOf c2bState 0 ∧ ¬ concIn (layoutOf c2bState 0) 0 ∧
    examined c2cState 0 = .err .assertError (resState (examined c2cState 0)) := by
  refine ⟨by decide, by decide, by decide, by decide, by decide, by decide, by decide,
    by decide, by decide⟩

/-- The S2 scenario state: `b"AAAABBBB"` with the examiner claiming
`[2, 6)`. -/
def c2wState : Excv :=
  resState (create (mkTop [65,65,65,65,66,66,66,66]) 0 none (some 2) (some 6) none)

/-- Witness for C2 on scenario S2 at byte 0: it is covered by a gap entry
appended by `examined()` (the `b"AA"` gap child of `[0,2)`). -/
theorem C2_coverage_witness :
    concIn [((some 2 : Option Nat), (some 6 : Option Nat), (1 : Nat))] 0 ∨
    ∃ e ∈ (layoutOf (resState (examined c2wState 0)) 0).drop 1, entryCovers e 0 = true :=
  (C2_coverage c2wState 0
    ⟨[65,65,65,65,66,66,66,66], sha256hex [65,65,65,65,66,66,66,66],
      [PRef.exc], [1], none, [], [], [], [], false, [(some 2, some 6, 1)]⟩
    rfl (by
      intro e he st sp h1 h2
      have he' : e = ((some 2 : Option Nat), (some 6 : Option Nat), (1 : Nat)) := by
        simpa using he
      subst he'
      have hst : st = 2 := by
        injection h1 with hh
        exact hh.symm
      have hsp : sp = 6 := by
        injection h2 with hh
        exact hh.symm
      subst hst
      subst hsp
      exact ⟨by decide, by decide⟩)).1
    (by decide) (resState (examined c2wState 0)) rfl 0 (by decide)
